import Mathlib

/-!
# SEO audit tool (`backend/main.go`): a shallow embedding

The program reads a list of URLs, visits each one with a `colly` collector,
records title, meta description and headings, collects candidate links from
the anchors, probes every candidate with a HEAD request and appends one
`PageReport` per URL to the report.

* A Go `string` is modelled by its sequence of Unicode characters
  (`GoString`); strings that are not valid UTF-8 are outside the model.
  The decoded fields of a `net/url` URL (host, path, fragment, user info),
  which may hold arbitrary bytes after percent-decoding, are byte sequences
  (`Bytes`).
* Go's standard library (`strings`, `fmt`, `net/url`, `net/http`) and the
  `colly` collector are not part of the program; they are modelled here from
  their sources and documented behaviour, each definition naming the function
  it stands for. Of `colly`: the HTML callbacks run in registration order,
  each over the elements its selector finds in document order, and none runs
  when `Visit` returns an error. Of `net/http`: `Head` returns a response, an
  error, or (when the redirect policy fails) both. Of `net/url`: releases
  differ in the hosts they accept (text in brackets, several colons) and in
  how a `..` that empties the path is followed up; the model follows the
  stricter releases, and the statement on root-relative hrefs is made for
  plain hosts and does not fix the resolved path beyond its leading slash,
  except for hrefs without `.` and `..` elements.
* What the network and the file system answer is a parameter of the run
  (`Env`), indexed by the position of the request, so that two probes of one
  URL may answer differently.
-/

namespace SEOAudit

/-- A Go string, as the sequence of its characters. -/
abbrev GoString := List Char

/-- A string of raw bytes (values below 256). -/
abbrev Bytes := List Nat

/-! ## `strings` -/

namespace strings

/-- Go `strings.HasPrefix`. -/
def HasPrefix (s pre : GoString) : Bool := pre.isPrefixOf s

/-- Go `strings.HasSuffix`. -/
def HasSuffix (s suf : GoString) : Bool := suf.isSuffixOf s

/-- Go `strings.Split(s, sep)` for a separator of one character: the pieces of
`s` between the occurrences of `sep`; the empty string gives one empty piece. -/
def Split (sep : Char) : GoString → List GoString
  | [] => [[]]
  | c :: cs =>
    if c = sep then [] :: Split sep cs
    else
      match Split sep cs with
      | [] => [[c]]
      | l :: ls => (c :: l) :: ls

/-- Go `strings.Cut(s, sep)` for a separator of one character: the text before
the first `sep`, the text after it, and whether `sep` occurs. -/
def Cut (sep : Char) : GoString → GoString × GoString × Bool
  | [] => ([], [], false)
  | c :: cs =>
    if c = sep then ([], cs, true)
    else
      let r := Cut sep cs
      (c :: r.1, r.2.1, r.2.2)

/-- Go `strings.Count(s, sep)` for a separator of one character. -/
def Count (sep : Char) (s : GoString) : Nat := s.count sep

/-- Go `strings.Index(s, sep)` for a separator of one character (`none` is -1). -/
def Index (sep : Char) : GoString → Option Nat
  | [] => none
  | c :: cs => if c = sep then some 0 else (Index sep cs).map (· + 1)

/-- Go `strings.LastIndex(s, sep)` for a separator of one character. -/
def LastIndex (sep : Char) : GoString → Option Nat
  | [] => none
  | c :: cs =>
    match LastIndex sep cs with
    | some i => some (i + 1)
    | none => if c = sep then some 0 else none

/-- Go `strings.Index(s, sub)` for any substring. -/
def IndexStr (sub : GoString) : GoString → Option Nat
  | [] => if sub = [] then some 0 else none
  | c :: cs =>
    if sub.isPrefixOf (c :: cs) then some 0 else (IndexStr sub cs).map (· + 1)

/-- Go `unicode.IsSpace`: the characters of the Unicode White_Space property. -/
def IsSpace (c : Char) : Bool :=
  let r := c.toNat
  (0x09 ≤ r && r ≤ 0x0d) || r = 0x20 || r = 0x85 || r = 0xa0 || r = 0x1680 ||
  (0x2000 ≤ r && r ≤ 0x200a) || r = 0x2028 || r = 0x2029 || r = 0x202f ||
  r = 0x205f || r = 0x3000

/-- Go `strings.TrimSpace`: drops the white space at both ends. -/
def TrimSpace (s : GoString) : GoString :=
  (s.dropWhile IsSpace).rdropWhile IsSpace

/-- Go `strings.ToUpper` on ASCII text (the program applies it to the tag
names `h1` .. `h6` only): lower-case letters become upper-case ones. -/
def ToUpper (s : GoString) : GoString := s.map Char.toUpper

/-- Go `strings.ToLower` on ASCII text (`net/url` applies it to a scheme,
which holds ASCII letters, digits, `+`, `-` and `.` only). -/
def ToLower (s : GoString) : GoString := s.map Char.toLower

end strings

/-! ## `fmt` -/

/-- Go `fmt.Sprint` of an `int`: its decimal digits, with a minus sign when
negative. -/
def Sprint : Int → GoString
  | Int.ofNat n => Nat.toDigits 10 n
  | Int.negSucc n => '-' :: Nat.toDigits 10 (n + 1)

/-! ## `net/url` -/

namespace url

/-- The encoding modes of `net/url`. -/
inductive encoding
  | encodePath
  | encodePathSegment
  | encodeHost
  | encodeZone
  | encodeUserPassword
  | encodeQueryComponent
  | encodeFragment
  deriving DecidableEq, Repr

open encoding

/-- Whether `c` is one of the characters of `set`. -/
def oneOf (c : Char) (set : String) : Bool := set.toList.contains c

/-- Go `ishex`. -/
def ishex (c : Char) : Bool :=
  let n := c.toNat
  (48 ≤ n && n ≤ 57) || (97 ≤ n && n ≤ 102) || (65 ≤ n && n ≤ 70)

/-- Go `unhex`. -/
def unhex (c : Char) : Nat :=
  let n := c.toNat
  if 48 ≤ n && n ≤ 57 then n - 48
  else if 97 ≤ n && n ≤ 102 then n - 97 + 10
  else if 65 ≤ n && n ≤ 70 then n - 65 + 10
  else 0

/-- The first test of Go `shouldEscape`: an ASCII letter or digit. -/
def isAlnum (c : Char) : Bool :=
  let n := c.toNat
  (97 ≤ n && n ≤ 122) || (65 ≤ n && n ≤ 90) || (48 ≤ n && n ≤ 57)

/-- Go `shouldEscape`: whether the byte `c` must be percent-encoded in the
given part of a URL. Every byte from 0x80 up must be. -/
def shouldEscape (c : Char) (mode : encoding) : Bool :=
  if isAlnum c then false
  else if (mode = encodeHost || mode = encodeZone) && oneOf c "!$&'()*+,;=:[]<>\"" then false
  else if oneOf c "-_.~" then false
  else if oneOf c "$&+,/:;=?@" &&
      (mode = encodePath || mode = encodePathSegment || mode = encodeUserPassword ||
        mode = encodeQueryComponent || mode = encodeFragment) then
    match mode with
    | encodePath => c = '?'
    | encodePathSegment => c = '/' || c = ';' || c = ',' || c = '?'
    | encodeUserPassword => c = '@' || c = '/' || c = '?' || c = ':'
    | encodeQueryComponent => true
    | _ => false
  else if mode = encodeFragment && oneOf c "!()*" then false
  else true

/-- The UTF-8 bytes of a character. -/
def utf8EncodeChar (c : Char) : Bytes :=
  let v := c.toNat
  if v ≤ 0x7f then [v]
  else if v ≤ 0x7ff then [0xc0 + v / 64, 0x80 + v % 64]
  else if v ≤ 0xffff then [0xe0 + v / 4096, 0x80 + v / 64 % 64, 0x80 + v % 64]
  else [0xf0 + v / 262144, 0x80 + v / 4096 % 64, 0x80 + v / 64 % 64, 0x80 + v % 64]

/-- The UTF-8 bytes of a string. -/
def utf8Encode (s : GoString) : Bytes := s.flatMap utf8EncodeChar

/-- Go `unescape`: percent-decoding of `s` in the given mode; `none` is an
`EscapeError` or `InvalidHostError`. Go validates in a first pass and decodes
in a second; here one pass fails as soon as any position is invalid. -/
def unescape (mode : encoding) : GoString → Option Bytes
  | [] => some []
  | c :: rest =>
    if c = '%' then
      match rest with
      | h1 :: h2 :: rest2 =>
        if ishex h1 && ishex h2 then
          let v := unhex h1 * 16 + unhex h2
          if mode = encodeHost && unhex h1 < 8 && !(h1 = '2' && h2 = '5') then none
          else if mode = encodeZone && !(h1 = '2' && h2 = '5') && v ≠ 32 &&
              shouldEscape (Char.ofNat v) encodeHost then none
          else (unescape mode rest2).map (fun t => v :: t)
        else none
      | _ => none
    else if c = '+' then
      (unescape mode rest).map
        (fun t => (if mode = encodeQueryComponent then 32 else 43) :: t)
    else if (mode = encodeHost || mode = encodeZone) && c.toNat < 0x80 &&
        shouldEscape c encodeHost then none
    else (unescape mode rest).map (fun t => utf8EncodeChar c ++ t)

/-- The digit of `upperhex` for a value below 16. -/
def upperhex (n : Nat) : Char :=
  if n < 10 then Char.ofNat (48 + n) else Char.ofNat (55 + n)

/-- Go `escape`: percent-encoding of the bytes `s` in the given mode. -/
def escape (mode : encoding) : Bytes → GoString
  | [] => []
  | b :: rest =>
    if b = 32 && mode = encodeQueryComponent then '+' :: escape mode rest
    else if shouldEscape (Char.ofNat b) mode then
      '%' :: upperhex (b / 16 % 16) :: upperhex (b % 16) :: escape mode rest
    else Char.ofNat b :: escape mode rest

/-- Go `validEncoded`: whether `s` is a valid encoded path or fragment. -/
def validEncoded (mode : encoding) (s : GoString) : Bool :=
  s.all (fun c => oneOf c "!$&'()*+,;=:@[]%" || !shouldEscape c mode)

/-- Go `Userinfo`. -/
structure Userinfo where
  username : Bytes
  password : Bytes
  passwordSet : Bool
  deriving DecidableEq, Repr

/-- Go `url.URL`. -/
structure URL where
  Scheme : GoString
  Opaque : GoString
  User : Option Userinfo
  Host : Bytes
  Path : Bytes
  RawPath : GoString
  OmitHost : Bool
  ForceQuery : Bool
  RawQuery : GoString
  Fragment : Bytes
  RawFragment : GoString
  deriving DecidableEq, Repr

/-- The zero value of `url.URL`. -/
def URL.zero : URL :=
  { Scheme := [], Opaque := [], User := none, Host := [], Path := [], RawPath := [],
    OmitHost := false, ForceQuery := false, RawQuery := [], Fragment := [],
    RawFragment := [] }

/-- Go `stringContainsCTLByte`. -/
def stringContainsCTLByte (s : GoString) : Bool :=
  s.any (fun c => c.toNat < 32 || c.toNat = 0x7f)

/-- The loop of Go `getScheme`: `pre` is the text already scanned. -/
def getSchemeLoop (rawURL : GoString) (pre : GoString) : GoString → Option (GoString × GoString)
  | [] => some ([], rawURL)
  | c :: cs =>
    if c.isAlpha then getSchemeLoop rawURL (pre ++ [c]) cs
    else if c.isDigit || c = '+' || c = '-' || c = '.' then
      if pre = [] then some ([], rawURL) else getSchemeLoop rawURL (pre ++ [c]) cs
    else if c = ':' then
      if pre = [] then none else some (pre, cs)
    else some ([], rawURL)

/-- Go `getScheme`: the scheme and the rest of the URL; `none` is the error
"missing protocol scheme". -/
def getScheme (rawURL : GoString) : Option (GoString × GoString) :=
  getSchemeLoop rawURL [] rawURL

/-- Go `validOptionalPort`. -/
def validOptionalPort (port : GoString) : Bool :=
  match port with
  | [] => true
  | c :: rest => c = ':' && rest.all Char.isDigit

/-- Go `validUserinfo`. -/
def validUserinfo (s : GoString) : Bool :=
  s.all (fun r => r.isAlphanum || oneOf r "-._:~!$&'()*+,;=%@")

/-- A field of a dotted IPv4 address as `netip` reads it: decimal digits
without a leading zero, of a value up to 255. -/
def validIPv4Field (f : Bytes) : Bool :=
  f ≠ [] && f.all (fun d => 48 ≤ d && d ≤ 57) && (f.length = 1 || f.head? ≠ some 48) &&
    f.foldl (fun v d => v * 10 + (d - 48)) 0 ≤ 255

/-- The pieces of a byte string between the occurrences of `sep`. -/
def splitBytes (sep : Nat) : Bytes → List Bytes
  | [] => [[]]
  | c :: cs =>
    if c = sep then [] :: splitBytes sep cs
    else
      match splitBytes sep cs with
      | [] => [[c]]
      | l :: ls => (c :: l) :: ls

/-- A dotted IPv4 address: four fields. -/
def validIPv4 (s : Bytes) : Bool :=
  (splitBytes 46 s).length = 4 && (splitBytes 46 s).all validIPv4Field

/-- A group of an IPv6 address: one to four hexadecimal digits. -/
def validHexGroup (g : Bytes) : Bool :=
  g ≠ [] && g.length ≤ 4 &&
    g.all (fun d => (48 ≤ d && d ≤ 57) || (97 ≤ d && d ≤ 102) || (65 ≤ d && d ≤ 70))

/-- The number of 16-bit fields of colon-separated groups of which the last
may be a dotted IPv4 address (two fields); `none` when a group is malformed. -/
def countFields : List Bytes → Option Nat
  | [] => some 0
  | [g] => if validHexGroup g then some 1 else if validIPv4 g then some 2 else none
  | g :: gs => if validHexGroup g then (countFields gs).map (· + 1) else none

/-- The position of the first `::` in an address. -/
def indexEllipsis : Bytes → Option Nat
  | [] => none
  | [_] => none
  | a :: b :: rest =>
    if a = 58 && b = 58 then some 0 else (indexEllipsis (b :: rest)).map (· + 1)

/-- An IPv6 address as `netip.ParseAddr` accepts it, without its zone: eight
fields, or fewer around one `::`; the last two fields may be a dotted IPv4
address. -/
def validIPv6Address (s : Bytes) : Bool :=
  match indexEllipsis s with
  | none => countFields (splitBytes 58 s) == some 8
  | some i =>
    let left := s.take i
    let right := s.drop (i + 2)
    let nl := if left = [] then some 0
      else if (splitBytes 58 left).all validHexGroup then some (splitBytes 58 left).length
      else none
    let nr := if right = [] then some 0 else countFields (splitBytes 58 right)
    match nl, nr with
    | some a, some b => a + b ≤ 7
    | _, _ => false

/-- What `parseHost` asks of the text between the brackets: an IPv6 address,
with a non-empty zone after `%` if there is one. -/
def validIPLiteral (name : Bytes) : Bool :=
  let addr := name.takeWhile (fun b => b ≠ 37)
  let zone := name.dropWhile (fun b => b ≠ 37)
  (zone = [] || 2 ≤ zone.length) && validIPv6Address addr

/-- Go `parseHost`, of the releases that check the text in brackets and the
colons of a host: a host that holds a bracket is `[` IPv6 address `]` with an
optional port, any other host has at most one colon, before a decimal
port. -/
def parseHost (host : GoString) : Option Bytes :=
  if host.contains '[' || host.contains ']' then
    if !strings.HasPrefix host "[".toList || strings.Count '[' host ≠ 1 then none
    else
      match strings.LastIndex ']' host with
      | none => none
      | some i =>
        let colonPort := host.drop (i + 1)
        if !validOptionalPort colonPort then none
        else
          let hostname := (host.take i).drop 1
          let unescaped :=
            match strings.IndexStr "%25".toList hostname with
            | some zone =>
              match unescape encodeHost (hostname.take zone),
                  unescape encodeZone (hostname.drop zone) with
              | some hostPart, some zonePart => some (hostPart ++ zonePart)
              | _, _ => none
            | none => unescape encodeHost hostname
          match unescaped, unescape encodeHost colonPort with
          | some name, some port =>
            if validIPLiteral name then some ([91] ++ name ++ [93] ++ port) else none
          | _, _ => none
  else
    match strings.LastIndex ':' host with
    | some i =>
      if strings.Count ':' host ≠ 1 || !validOptionalPort (host.drop i) then none
      else unescape encodeHost host
    | none => unescape encodeHost host

/-- Go `parseAuthority`: the user info and the host of an authority. -/
def parseAuthority (authority : GoString) : Option (Option Userinfo × Bytes) :=
  match strings.LastIndex '@' authority with
  | none => (parseHost authority).map (fun host => (none, host))
  | some i =>
    match parseHost (authority.drop (i + 1)) with
    | none => none
    | some host =>
      let userinfo := authority.take i
      if !validUserinfo userinfo then none
      else if !userinfo.contains ':' then
        (unescape encodeUserPassword userinfo).map
          (fun n => (some { username := n, password := [], passwordSet := false }, host))
      else
        let r := strings.Cut ':' userinfo
        match unescape encodeUserPassword r.1, unescape encodeUserPassword r.2.1 with
        | some username, some password =>
          some (some { username := username, password := password, passwordSet := true }, host)
        | _, _ => none

/-- Go `(*URL).setPath`: `none` is the error of `unescape`. -/
def URL.setPath (u : URL) (p : GoString) : Option URL :=
  match unescape encodePath p with
  | none => none
  | some path =>
    some { u with Path := path, RawPath := if p = escape encodePath path then [] else p }

/-- Go `(*URL).setFragment`. -/
def URL.setFragment (u : URL) (f : GoString) : Option URL :=
  match unescape encodeFragment f with
  | none => none
  | some frag =>
    some { u with
      Fragment := frag, RawFragment := if f = escape encodeFragment frag then [] else f }

/-- The query step of Go `parse`: a lone trailing `?` sets `ForceQuery`,
otherwise the text after the first `?` is the raw query. Gives the URL and
the rest still to parse. -/
def splitQuery (url : URL) (rest : GoString) : URL × GoString :=
  if strings.HasSuffix rest "?".toList && strings.Count '?' rest == 1 then
    ({ url with ForceQuery := true }, rest.dropLast)
  else
    ({ url with RawQuery := (strings.Cut '?' rest).2.1 }, (strings.Cut '?' rest).1)

/-- The authority step of Go `parse`: the text after `//` up to the next
slash is the authority, what follows is the path. -/
def parseAuthorityAndPath (url : URL) (rest : GoString) : Option URL :=
  let authority0 := rest.drop 2
  let cut := strings.Index '/' authority0
  let authority := match cut with
    | some i => authority0.take i
    | none => authority0
  let rest := match cut with
    | some i => authority0.drop i
    | none => []
  match parseAuthority authority with
  | none => none
  | some (user, host) => URL.setPath { url with User := user, Host := host } rest

/-- The steps of Go `parse` (with `viaRequest = false`) after the scheme and
the query are split off: opaque text, authority, path. -/
def parseRest (url : URL) (rest : GoString) : Option URL :=
  if !strings.HasPrefix rest "/".toList && url.Scheme ≠ [] then
    some { url with Opaque := rest }
  else if !strings.HasPrefix rest "/".toList &&
      (strings.Cut '/' rest).1.contains ':' then none
  else if (url.Scheme ≠ [] || !strings.HasPrefix rest "///".toList) &&
      strings.HasPrefix rest "//".toList then
    parseAuthorityAndPath url rest
  else if url.Scheme ≠ [] && strings.HasPrefix rest "/".toList then
    URL.setPath { url with OmitHost := true } rest
  else URL.setPath url rest

/-- Go `parse` with `viaRequest = false`. -/
def parse (rawURL : GoString) : Option URL :=
  if stringContainsCTLByte rawURL then none
  else if rawURL = "*".toList then some { URL.zero with Path := [42] }
  else
    match getScheme rawURL with
    | none => none
    | some (scheme, rest) =>
      let q := splitQuery { URL.zero with Scheme := strings.ToLower scheme } rest
      parseRest q.1 q.2

/-- Go `url.Parse`: `none` is a parse error. -/
def Parse (rawURL : GoString) : Option URL :=
  let c := strings.Cut '#' rawURL
  match parse c.1 with
  | none => none
  | some url => if c.2.1 = [] then some url else URL.setFragment url c.2.1

/-- Go `(*URL).EscapedPath`. -/
def URL.EscapedPath (u : URL) : GoString :=
  if u.RawPath ≠ [] && validEncoded encodePath u.RawPath &&
      unescape encodePath u.RawPath == some u.Path then u.RawPath
  else if u.Path = [42] then "*".toList
  else escape encodePath u.Path

/-- Go `(*URL).EscapedFragment`. -/
def URL.EscapedFragment (u : URL) : GoString :=
  if u.RawFragment ≠ [] && validEncoded encodeFragment u.RawFragment &&
      unescape encodeFragment u.RawFragment == some u.Fragment then u.RawFragment
  else escape encodeFragment u.Fragment

/-- Go `(*Userinfo).String`. -/
def Userinfo.String (u : Userinfo) : GoString :=
  escape encodeUserPassword u.username ++
    (if u.passwordSet then ':' :: escape encodeUserPassword u.password else [])

/-- One round of the loop of Go `resolvePath`: `dst` is the path built so far
and `first` tells that nothing stands after the leading slash. A `..` drops
the last element written; when that leaves the leading slash alone, `first`
holds again. -/
def resolvePathStep (st : GoString × Bool) (elem : GoString) : GoString × Bool :=
  if elem = ".".toList then (st.1, false)
  else if elem = "..".toList then
    let str := st.1.drop 1
    match strings.LastIndex '/' str with
    | none => ("/".toList, true)
    | some index => ('/' :: str.take index, if index = 0 then true else st.2)
  else ((if st.2 then st.1 else st.1 ++ "/".toList) ++ elem, false)

/-- Go `resolvePath`: the reference path resolved against the base path, with
the `.` and `..` elements removed (RFC 3986, 5.2). -/
def resolvePath (base ref : GoString) : GoString :=
  let full :=
    match ref with
    | [] => base
    | c :: _ =>
      if c ≠ '/' then
        (match strings.LastIndex '/' base with
          | some i => base.take (i + 1)
          | none => []) ++ ref
      else ref
  if full = [] then []
  else
    let elems := strings.Split '/' full
    let dst := (elems.foldl resolvePathStep ("/".toList, true)).1
    let last := elems.getLastD []
    let r := if last = ".".toList || last = "..".toList then dst ++ "/".toList else dst
    match r with
    | _ :: '/' :: rest => '/' :: rest
    | _ => r

/-- The assignment `url.setPath(p)` whose error Go ignores: on an error the
URL is left as it was. -/
def URL.setPathIgnoringError (u : URL) (p : GoString) : URL :=
  (u.setPath p).getD u

/-- Go `(*URL).ResolveReference`. -/
def URL.ResolveReference (u ref : URL) : URL :=
  let url := if ref.Scheme = [] then { ref with Scheme := u.Scheme } else ref
  if ref.Scheme ≠ [] || ref.Host ≠ [] || ref.User.isSome then
    url.setPathIgnoringError (resolvePath ref.EscapedPath [])
  else if ref.Opaque ≠ [] then
    { url with User := none, Host := [], Path := [] }
  else
    let url :=
      if ref.Path = [] && !ref.ForceQuery && ref.RawQuery = [] then
        if ref.Fragment = [] then
          { url with RawQuery := u.RawQuery, Fragment := u.Fragment,
                     RawFragment := u.RawFragment }
        else { url with RawQuery := u.RawQuery }
      else url
    if ref.Path = [] && u.Opaque ≠ [] then
      { url with Opaque := u.Opaque, User := none, Host := [], Path := [] }
    else
      URL.setPathIgnoringError { url with Host := u.Host, User := u.User }
        (resolvePath u.EscapedPath ref.EscapedPath)

/-- Go `(*URL).String`. -/
def URL.String (u : URL) : GoString :=
  let buf : GoString := if u.Scheme ≠ [] then u.Scheme ++ ":".toList else []
  let buf :=
    if u.Opaque ≠ [] then buf ++ u.Opaque
    else
      let buf :=
        if u.Scheme ≠ [] || u.Host ≠ [] || u.User.isSome then
          if u.OmitHost && u.Host = [] && u.User.isNone then buf
          else
            let buf :=
              if u.Host ≠ [] || u.Path ≠ [] || u.User.isSome then buf ++ "//".toList else buf
            let buf :=
              match u.User with
              | some ui => buf ++ ui.String ++ "@".toList
              | none => buf
            if u.Host ≠ [] then buf ++ escape encodeHost u.Host else buf
        else buf
      let path := u.EscapedPath
      let buf :=
        if path ≠ [] && path.head? ≠ some '/' && u.Host ≠ [] then buf ++ "/".toList else buf
      let buf :=
        if buf = [] && (strings.Cut '/' path).1.contains ':' then buf ++ "./".toList else buf
      buf ++ path
  let buf := if u.ForceQuery || u.RawQuery ≠ [] then buf ++ "?".toList ++ u.RawQuery else buf
  if u.Fragment ≠ [] then buf ++ "#".toList ++ u.EscapedFragment else buf

end url

/-! ## `colly`: elements, selectors and the collector -/

/-- A `colly.HTMLElement`: the tag name, the text of the element and its
attributes in source order. -/
structure HTMLElement where
  Name : GoString
  Text : GoString
  attributes : List (GoString × GoString)
  deriving DecidableEq, Repr

/-- Go `(*HTMLElement).Attr`: the value of the first attribute named `k`, the
empty string when there is none. -/
def HTMLElement.Attr (e : HTMLElement) (k : GoString) : GoString :=
  match e.attributes.find? (fun a => a.1 = k) with
  | some a => a.2
  | none => []

/-- The three forms of selector the program registers: a tag name (`title`,
`h1`), a tag with an attribute (`a[href]`) and a tag with an attribute of a
given value (`meta[name='description']`). -/
inductive Selector
  | tag (name : GoString)
  | tagAttr (name attr : GoString)
  | tagAttrEq (name attr val : GoString)
  deriving DecidableEq, Repr

/-- Whether the selector matches the element. -/
def Selector.selects : Selector → HTMLElement → Bool
  | Selector.tag name, e => e.Name = name
  | Selector.tagAttr name attr, e => e.Name = name && e.attributes.any (fun a => a.1 = attr)
  | Selector.tagAttrEq name attr val, e =>
    e.Name = name && e.attributes.any (fun a => a.1 = attr && a.2 = val)

/-- A parsed HTML document: its elements in document order. -/
abbrev Document := List HTMLElement

/-- The `PageReport` of `main.go`. -/
structure PageReport where
  URL : GoString
  Title : GoString
  MetaDesc : GoString
  Headings : List GoString
  BrokenLinks : List GoString
  deriving DecidableEq, Repr

/-- The `AuditReport` of `main.go`. -/
structure AuditReport where
  Pages : List PageReport
  deriving DecidableEq, Repr

/-- The variables the callbacks of one page close over: the `page` under
construction and the candidate `links`. -/
structure PageState where
  page : PageReport
  links : List GoString
  deriving DecidableEq, Repr

/-- A callback registered with `OnHTML`. -/
abbrev HTMLCallback := HTMLElement → PageState → PageState

/-- A `colly.Collector`: its HTML callbacks in registration order. -/
structure Collector where
  htmlCallbacks : List (Selector × HTMLCallback)

/-- Go `colly.NewCollector()`. -/
def NewCollector : Collector := { htmlCallbacks := [] }

/-- Go `(*Collector).OnHTML`: the callback is added after the registered ones. -/
def Collector.OnHTML (c : Collector) (sel : Selector) (f : HTMLCallback) : Collector :=
  { htmlCallbacks := c.htmlCallbacks ++ [(sel, f)] }

/-- Go `(*Collector).handleOnHTML`: for each callback in registration order,
for each element the selector finds in document order, the callback runs. -/
def Collector.handleOnHTML (c : Collector) (doc : Document) (st : PageState) : PageState :=
  c.htmlCallbacks.foldl
    (fun st cc => (doc.filter cc.1.selects).foldl (fun st e => cc.2 e st) st) st

/-- What fetching a page gives: an error (request refused, transport failure,
a status the collector rejects), in which case no callback runs and `Visit`
returns the error; or a response whose document the HTML callbacks are run
on (a body that is not HTML has no elements), `Visit` returning `nil`. -/
inductive FetchResult
  | failed (err : GoString)
  | fetched (doc : Document)
  deriving DecidableEq, Repr

/-- Go `(*Collector).Visit`: the state after the callbacks and the error. -/
def Collector.Visit (c : Collector) (r : FetchResult) (st : PageState) :
    PageState × Option GoString :=
  match r with
  | FetchResult.failed err => (st, some err)
  | FetchResult.fetched doc => (c.handleOnHTML doc st, none)

/-! ## `net/http` -/

/-- What `client.Head(link)` returns. `net/http` never returns a nil response
with a nil error; a response together with an error is what it returns when
the redirect policy fails (the default client stops after 10 redirects and
hands back the last response). -/
inductive HeadResult
  | response (StatusCode : Int)
  | error (msg : GoString)
  | responseAndError (StatusCode : Int) (msg : GoString)
  deriving DecidableEq, Repr

/-- The status code of `resp`, `none` when `resp` is nil. -/
def HeadResult.resp : HeadResult → Option Int
  | HeadResult.response c => some c
  | HeadResult.error _ => none
  | HeadResult.responseAndError c _ => some c

/-- The text `err.Error()`, `none` when `err` is nil. -/
def HeadResult.err : HeadResult → Option GoString
  | HeadResult.response _ => none
  | HeadResult.error msg => some msg
  | HeadResult.responseAndError _ msg => some msg

/-! ## `main.go` -/

/-- The outside world of one run: the content of files, and what each page
fetch and each link probe answers. `Visit i u` is the fetch of the `i`-th URL
of the list, `Head i j link` the probe of the `j`-th candidate of that page. -/
structure Env where
  ReadFile : GoString → Except GoString GoString
  Visit : Nat → GoString → FetchResult
  Head : Nat → Nat → GoString → HeadResult

/-- Function `isAbsoluteURL`. -/
def isAbsoluteURL (link : GoString) : Bool :=
  strings.HasPrefix link "http://".toList || strings.HasPrefix link "https://".toList

/-- The lines of the file that are added to the URL list (the loop over
`lines` in `main`). -/
def appendFileLines (urls : List GoString) : List GoString → List GoString
  | [] => urls
  | line :: lines =>
    let line := strings.TrimSpace line
    if line ≠ [] then appendFileLines (urls ++ [line]) lines
    else appendFileLines urls lines

/-- The URL list `main` assembles from the positional arguments `args` and
the `-file` flag; `Except.error 1` is `os.Exit(1)`. -/
def collectURLs (env : Env) (args : List GoString) (file : GoString) :
    Except Nat (List GoString) :=
  let urls := args
  if file ≠ [] then
    match env.ReadFile file with
    | Except.error _ => Except.error 1
    | Except.ok data =>
      let lines := strings.Split '\n' data
      Except.ok (appendFileLines urls lines)
  else Except.ok urls

/-- The fresh `PageReport` of a URL. -/
def newPage (u : GoString) : PageReport :=
  { URL := u, Title := [], MetaDesc := [], Headings := [], BrokenLinks := [] }

/-- The `title` callback. -/
def onTitle : HTMLCallback := fun e st =>
  { st with page := { st.page with Title := e.Text } }

/-- The `meta[name='description']` callback. -/
def onMetaDescription : HTMLCallback := fun e st =>
  { st with page := { st.page with MetaDesc := e.Attr "content".toList } }

/-- The callback of the heading level `h`. -/
def onHeading (h : GoString) : HTMLCallback := fun e st =>
  let txt := strings.TrimSpace e.Text
  if txt ≠ [] then
    { st with page :=
        { st.page with Headings := st.page.Headings ++ [strings.ToUpper h ++ ": ".toList ++ txt] } }
  else st

/-- The heading levels, in the order their callbacks are registered. -/
def headingLevels : List GoString :=
  ["h1".toList, "h2".toList, "h3".toList, "h4".toList, "h5".toList, "h6".toList]

/-- What the `a[href]` callback does to `links` on the page `u` for an anchor
whose attribute is `href`. -/
def collectLink (u href : GoString) (links : List GoString) : List GoString :=
  if isAbsoluteURL href then links ++ [href]
  else if strings.HasPrefix href "/".toList then
    match url.Parse u with
    | some baseURL =>
      match url.Parse href with
      | some rel => links ++ [(baseURL.ResolveReference rel).String]
      | none => links
    | none => links
  else links

/-- The `a[href]` callback of the page `u`. -/
def onAnchor (u : GoString) : HTMLCallback := fun e st =>
  { st with links := collectLink u (e.Attr "href".toList) st.links }

/-- The collector of the page `u` with its callbacks registered: title, meta
description, the six heading levels, anchors. -/
def pageCollector (u : GoString) : Collector :=
  let c := NewCollector
  let c := c.OnHTML (Selector.tag "title".toList) onTitle
  let c := c.OnHTML
    (Selector.tagAttrEq "meta".toList "name".toList "description".toList) onMetaDescription
  let c := headingLevels.foldl (fun c h => c.OnHTML (Selector.tag h) (onHeading h)) c
  c.OnHTML (Selector.tagAttr "a".toList "href".toList) (onAnchor u)

/-- The fetch of the page: `c.Visit(u)` and the sentinel title on an error.
Gives the page and the candidate links. -/
def visitPage (r : FetchResult) (u : GoString) : PageState :=
  let res := (pageCollector u).Visit r { page := newPage u, links := [] }
  match res.2 with
  | some _ =>
    { res.1 with page := { res.1.page with Title := "[ERROR] Could not fetch page".toList } }
  | none => res.1

/-- The body of the link loop for one `link` whose HEAD request gave `r`. -/
def checkLink (r : HeadResult) (link : GoString) (page : PageReport) : PageReport :=
  if r.err.isSome || (match r.resp with
      | some StatusCode => decide (StatusCode ≥ 400)
      | none => false) then
    let status : Int := match r.resp with
      | some StatusCode => StatusCode
      | none => 0
    let errMsg : GoString := match r.err with
      | some msg => msg
      | none => []
    let brokenInfo := link ++ " [status: ".toList ++ Sprint status ++ "]".toList
    let brokenInfo :=
      if errMsg ≠ [] then brokenInfo ++ " [error: ".toList ++ errMsg ++ "]".toList
      else brokenInfo
    { page with BrokenLinks := page.BrokenLinks ++ [brokenInfo] }
  else page

/-- The link loop from the `j`-th candidate on. -/
def checkLinks (Head : Nat → GoString → HeadResult) :
    Nat → List GoString → PageReport → PageReport
  | _, [], page => page
  | j, link :: links, page => checkLinks Head (j + 1) links (checkLink (Head j link) link page)

/-- The body of the main loop for the `i`-th URL `u`: the finished page. -/
def auditPage (env : Env) (i : Nat) (u : GoString) : PageReport :=
  let st := visitPage (env.Visit i u) u
  checkLinks (env.Head i) 0 st.links st.page

/-- The main loop from the `i`-th URL on. -/
def auditLoop (env : Env) : Nat → List GoString → AuditReport → AuditReport
  | _, [], report => report
  | i, u :: urls, report =>
    auditLoop env (i + 1) urls { Pages := report.Pages ++ [auditPage env i u] }

/-- The report `main` builds for the URL list (lines 61 to 136). -/
def audit (env : Env) (urls : List GoString) : AuditReport :=
  auditLoop env 0 urls { Pages := [] }

/-- Function `main` up to the finished report: `Except.error 1` is
`os.Exit(1)`, after an unreadable file or an empty URL list. -/
def main (env : Env) (args : List GoString) (file : GoString) : Except Nat AuditReport :=
  match collectURLs env args file with
  | Except.error code => Except.error code
  | Except.ok urls =>
    if urls.length = 0 then Except.error 1 else Except.ok (audit env urls)

/-! ## Vocabulary of the statements -/

/-- Whether the probe result counts as broken: an error, or a status of 400
or more. -/
def isBroken (r : HeadResult) : Bool :=
  r.err.isSome || (match r.resp with
    | some StatusCode => decide (StatusCode ≥ 400)
    | none => false)

/-- What one probe of `link` adds to the broken links of a page: the entries
the loop body appends to an empty sequence. -/
def probeEntries (r : HeadResult) (link : GoString) : List GoString :=
  (checkLink r link (newPage [])).BrokenLinks

/-- The entry the callback of level `h` appends for an element, if any. -/
def headingEntry (h : GoString) (e : HTMLElement) : Option GoString :=
  let txt := strings.TrimSpace e.Text
  if txt ≠ [] then some (strings.ToUpper h ++ ": ".toList ++ txt) else none

/-- The elements of the document the selector of level `h` finds. -/
def headingElements (doc : Document) (h : GoString) : List HTMLElement :=
  doc.filter (fun e => e.Name = h)

/-- The anchors of the document that carry an `href`. -/
def anchorElements (doc : Document) : List HTMLElement :=
  doc.filter (Selector.tagAttr "a".toList "href".toList).selects

/-- The URL a line of the file supplies: the line without the white space
around it, if anything is left. -/
def fileURL (line : GoString) : Option GoString :=
  if strings.TrimSpace line ≠ [] then some (strings.TrimSpace line) else none

/-- A character that a URL path holds as it is, without percent-encoding: an
ASCII letter or digit or one of `-_.~$&+,/:;=@`. -/
def plainChar (c : Char) : Bool := url.isAlnum c || url.oneOf c "-_.~$&+,/:;=@"

/-- A character of a plain host name: an ASCII letter or digit, `-` or `.`. -/
def hostChar (c : Char) : Bool := url.isAlnum c || c = '-' || c = '.'

/-- A plain host: a name of ASCII letters, digits, `-` and `.`, optionally
followed by `:` and a decimal port. -/
def plainHost (h : GoString) : Bool :=
  (h.takeWhile (fun c => c ≠ ':')).all hostChar &&
    ((h.dropWhile (fun c => c ≠ ':')).drop 1).all (fun c => 48 ≤ c.toNat && c.toNat ≤ 57)

/-! ## Lemmas on the link loop and the main loop -/

theorem checkLink_eq (r : HeadResult) (link : GoString) (page : PageReport) :
    checkLink r link page =
      { page with BrokenLinks := page.BrokenLinks ++ probeEntries r link } := by
  unfold probeEntries checkLink
  split <;> simp [newPage]

theorem probeEntries_of_broken (r : HeadResult) (link : GoString) (h : isBroken r = true) :
    ∃ d, probeEntries r link = [d] := by
  unfold isBroken at h
  unfold probeEntries checkLink
  rw [if_pos h]
  exact ⟨_, rfl⟩

theorem probeEntries_of_not_broken (r : HeadResult) (link : GoString)
    (h : isBroken r = false) : probeEntries r link = [] := by
  unfold isBroken at h
  unfold probeEntries checkLink
  rw [if_neg (by simp [h])]
  rfl

theorem probeEntries_length (r : HeadResult) (link : GoString) :
    (probeEntries r link).length = if isBroken r then 1 else 0 := by
  cases h : isBroken r
  · simp [probeEntries_of_not_broken r link h]
  · obtain ⟨d, hd⟩ := probeEntries_of_broken r link h
    simp [hd]

theorem checkLinks_eq (Head : Nat → GoString → HeadResult) (links : List GoString) :
    ∀ (j : Nat) (page : PageReport),
      checkLinks Head j links page =
        { page with BrokenLinks := page.BrokenLinks ++
            (List.enumFrom j links).flatMap (fun p => probeEntries (Head p.1 p.2) p.2) } := by
  induction links with
  | nil => intro j page; simp [checkLinks]
  | cons link links ih =>
    intro j page
    simp [checkLinks, ih, checkLink_eq, List.enumFrom_cons]

theorem auditLoop_pages (env : Env) (urls : List GoString) :
    ∀ (i : Nat) (report : AuditReport),
      (auditLoop env i urls report).Pages =
        report.Pages ++ (List.enumFrom i urls).map (fun p => auditPage env p.1 p.2) := by
  induction urls with
  | nil => intro i report; simp [auditLoop]
  | cons u urls ih =>
    intro i report
    simp [auditLoop, ih, List.enumFrom_cons]

theorem audit_pages (env : Env) (urls : List GoString) :
    (audit env urls).Pages = (List.enum urls).map (fun p => auditPage env p.1 p.2) := by
  simp [audit, auditLoop_pages, List.enum]

theorem flatMap_probeEntries_length (Head : Nat → GoString → HeadResult)
    (ps : List (Nat × GoString)) :
    (ps.flatMap (fun p => probeEntries (Head p.1 p.2) p.2)).length =
      ps.countP (fun p => isBroken (Head p.1 p.2)) := by
  induction ps with
  | nil => rfl
  | cons p ps ih =>
    rw [List.flatMap_cons, List.length_append, ih, probeEntries_length, List.countP_cons]
    omega

theorem filter_enumFrom_length (l : GoString) (links : List GoString) :
    ∀ j : Nat, ((List.enumFrom j links).filter (fun p => p.2 = l)).length = links.count l := by
  induction links with
  | nil => intro j; rfl
  | cons a links ih =>
    intro j
    by_cases ha : a = l
    · simp [List.enumFrom_cons, List.filter_cons, ha, ih]
    · simp [List.enumFrom_cons, List.filter_cons, ha, ih, List.count_cons]

/-! ## Lemmas on the callbacks -/

theorem foldl_onTitle (l : List HTMLElement) :
    ∀ st : PageState, ∃ t,
      l.foldl (fun st e => onTitle e st) st = { st with page := { st.page with Title := t } } := by
  induction l with
  | nil => intro st; exact ⟨st.page.Title, rfl⟩
  | cons e l ih =>
    intro st
    obtain ⟨t, ht⟩ := ih (onTitle e st)
    exact ⟨t, by rw [List.foldl_cons, ht]; rfl⟩

theorem foldl_onMetaDescription (l : List HTMLElement) :
    ∀ st : PageState, ∃ t,
      l.foldl (fun st e => onMetaDescription e st) st =
        { st with page := { st.page with MetaDesc := t } } := by
  induction l with
  | nil => intro st; exact ⟨st.page.MetaDesc, rfl⟩
  | cons e l ih =>
    intro st
    obtain ⟨t, ht⟩ := ih (onMetaDescription e st)
    exact ⟨t, by rw [List.foldl_cons, ht]; rfl⟩

theorem foldl_onHeading (h : GoString) (l : List HTMLElement) :
    ∀ st : PageState,
      l.foldl (fun st e => onHeading h e st) st =
        { st with page :=
            { st.page with Headings := st.page.Headings ++ l.filterMap (headingEntry h) } } := by
  induction l with
  | nil => intro st; simp
  | cons e l ih =>
    intro st
    rw [List.foldl_cons, ih]
    unfold onHeading headingEntry
    by_cases ht : strings.TrimSpace e.Text = []
    · simp [ht, List.filterMap_cons]
    · simp [ht, List.filterMap_cons]

theorem foldl_onAnchor (u : GoString) (l : List HTMLElement) :
    ∀ st : PageState,
      l.foldl (fun st e => onAnchor u e st) st =
        { st with links :=
            l.foldl (fun links e => collectLink u (e.Attr "href".toList) links) st.links } := by
  induction l with
  | nil => intro st; rfl
  | cons e l ih =>
    intro st
    rw [List.foldl_cons, ih]
    rfl

theorem pageCollector_callbacks (u : GoString) :
    (pageCollector u).htmlCallbacks =
      [(Selector.tag "title".toList, onTitle),
       (Selector.tagAttrEq "meta".toList "name".toList "description".toList, onMetaDescription),
       (Selector.tag "h1".toList, onHeading "h1".toList),
       (Selector.tag "h2".toList, onHeading "h2".toList),
       (Selector.tag "h3".toList, onHeading "h3".toList),
       (Selector.tag "h4".toList, onHeading "h4".toList),
       (Selector.tag "h5".toList, onHeading "h5".toList),
       (Selector.tag "h6".toList, onHeading "h6".toList),
       (Selector.tagAttr "a".toList "href".toList, onAnchor u)] := rfl

theorem filter_tag (doc : Document) (h : GoString) :
    doc.filter (Selector.tag h).selects = headingElements doc h := by
  unfold headingElements
  congr 1

/-- The state after a successful visit: the headings are those of the six
levels in turn, the links those the anchors give, the URL and the broken
links are untouched. -/
theorem visitPage_fetched (doc : Document) (u : GoString) :
    ∃ t m,
      visitPage (FetchResult.fetched doc) u =
        { page :=
            { URL := u, Title := t, MetaDesc := m,
              Headings := headingLevels.flatMap
                (fun h => (headingElements doc h).filterMap (headingEntry h)),
              BrokenLinks := [] },
          links :=
            (anchorElements doc).foldl
              (fun links e => collectLink u (e.Attr "href".toList) links) [] } := by
  unfold visitPage Collector.Visit Collector.handleOnHTML
  simp only [pageCollector_callbacks, List.foldl_cons, List.foldl_nil, filter_tag]
  obtain ⟨t, ht⟩ := foldl_onTitle (headingElements doc "title".toList)
    { page := newPage u, links := [] }
  rw [ht]
  obtain ⟨m, hm⟩ := foldl_onMetaDescription
    (doc.filter (Selector.tagAttrEq "meta".toList "name".toList "description".toList).selects)
    { page := { newPage u with Title := t }, links := [] }
  rw [hm]
  refine ⟨t, m, ?_⟩
  simp only [foldl_onHeading, foldl_onAnchor]
  simp [newPage, headingLevels, anchorElements]

theorem visitPage_failed (err u : GoString) :
    visitPage (FetchResult.failed err) u =
      { page := { newPage u with Title := "[ERROR] Could not fetch page".toList },
        links := [] } := rfl

theorem visitPage_URL (r : FetchResult) (u : GoString) : (visitPage r u).page.URL = u := by
  cases r with
  | failed err => rfl
  | fetched doc =>
    obtain ⟨t, m, h⟩ := visitPage_fetched doc u
    rw [h]

theorem visitPage_BrokenLinks (r : FetchResult) (u : GoString) :
    (visitPage r u).page.BrokenLinks = [] := by
  cases r with
  | failed err => rfl
  | fetched doc =>
    obtain ⟨t, m, h⟩ := visitPage_fetched doc u
    rw [h]

theorem auditPage_URL (env : Env) (i : Nat) (u : GoString) : (auditPage env i u).URL = u := by
  simp [auditPage, checkLinks_eq, visitPage_URL]

/-! ## Lemmas on the URL list -/

theorem appendFileLines_eq (lines : List GoString) :
    ∀ urls : List GoString, appendFileLines urls lines = urls ++ lines.filterMap fileURL := by
  induction lines with
  | nil => intro urls; simp [appendFileLines]
  | cons line lines ih =>
    intro urls
    unfold appendFileLines
    by_cases h : strings.TrimSpace line = []
    · simp [h, ih, fileURL, List.filterMap_cons]
    · simp [h, ih, fileURL, List.filterMap_cons]

theorem TrimSpace_getLast (s : GoString) (c : Char)
    (h : (strings.TrimSpace s).getLast? = some c) : strings.IsSpace c = false := by
  have hne : strings.TrimSpace s ≠ [] := by
    intro h0
    rw [h0] at h
    simp at h
  have hl := List.rdropWhile_last_not (p := strings.IsSpace) (l := s.dropWhile strings.IsSpace) hne
  rw [List.getLast?_eq_getLast _ hne] at h
  have hc : (strings.TrimSpace s).getLast hne = c := by simpa using h
  rw [← hc]
  simpa [strings.TrimSpace] using hl

theorem TrimSpace_head (s : GoString) (c : Char)
    (h : (strings.TrimSpace s).head? = some c) : strings.IsSpace c = false := by
  have hpre : strings.TrimSpace s <+: s.dropWhile strings.IsSpace :=
    List.rdropWhile_prefix _ _
  obtain ⟨t, ht⟩ := hpre
  cases hts : strings.TrimSpace s with
  | nil => rw [hts] at h; simp at h
  | cons a as =>
    rw [hts] at h ht
    have hac : a = c := by simpa using h
    have hd := List.head?_dropWhile_not strings.IsSpace s
    rw [← ht] at hd
    simpa [hac] using hd

/-! ## Lemmas on `net/url` -/

namespace url

open encoding

theorem Cut_fst_head (sep c : Char) (s : GoString) (h : s.head? ≠ some c) :
    (strings.Cut sep s).1.head? ≠ some c := by
  cases s with
  | nil => simp [strings.Cut]
  | cons a as =>
    unfold strings.Cut
    by_cases ha : a = sep
    · simp [ha]
    · simpa [ha] using h

theorem dropLast_head (c : Char) (s : GoString) (h : s.head? ≠ some c) :
    s.dropLast.head? ≠ some c := by
  cases s with
  | nil => simp
  | cons a as =>
    cases as with
    | nil => simp
    | cons b bs => simpa using h

theorem utf8EncodeChar_ne_nil (c : Char) : utf8EncodeChar c ≠ [] := by
  unfold utf8EncodeChar
  simp only []
  split_ifs <;> simp

theorem unescape_path_slash (s : GoString) :
    unescape encodePath ('/' :: s) = (unescape encodePath s).map (fun t => 47 :: t) := by
  conv_lhs => unfold unescape
  rw [if_neg (by decide), if_neg (by decide), if_neg (by decide)]
  rfl

theorem getScheme_slash (t : GoString) : getScheme ('/' :: t) = some ([], '/' :: t) := by
  unfold getScheme getSchemeLoop
  rw [if_neg (by decide), if_neg (by decide), if_neg (by decide)]

theorem HasPrefix_slash_cons (t : GoString) : strings.HasPrefix ('/' :: t) "/".toList = true := by
  simp [strings.HasPrefix]

theorem HasPrefix_slash2_cons (t : GoString) (ht : t.head? ≠ some '/') :
    strings.HasPrefix ('/' :: t) "//".toList = false := by
  cases t with
  | nil => rfl
  | cons a as =>
    have : a ≠ '/' := by simpa using ht
    simp [strings.HasPrefix, List.isPrefixOf, Ne.symm this]

theorem setPath_root (u : URL) (t : GoString) (r : URL)
    (h : URL.setPath u ('/' :: t) = some r) :
    r.Scheme = u.Scheme ∧ r.Opaque = u.Opaque ∧ r.User = u.User ∧ r.Host = u.Host ∧
    r.OmitHost = u.OmitHost ∧ r.ForceQuery = u.ForceQuery ∧ r.RawQuery = u.RawQuery ∧
    r.Fragment = u.Fragment ∧ r.RawFragment = u.RawFragment ∧
    r.Path.head? = some 47 ∧ (r.RawPath = [] ∨ r.RawPath.head? = some '/') := by
  unfold URL.setPath at h
  rw [unescape_path_slash] at h
  cases hu : unescape encodePath t with
  | none => rw [hu] at h; simp at h
  | some p =>
    rw [hu] at h
    simp only [Option.map_some', Option.some.injEq] at h
    subst h
    refine ⟨rfl, rfl, rfl, rfl, rfl, rfl, rfl, rfl, rfl, rfl, ?_⟩
    simp only []
    split
    · exact Or.inl rfl
    · exact Or.inr rfl


theorem splitQuery_root (url : URL) (t : GoString) (ht : t.head? ≠ some '/') :
    ∃ t2 : GoString, t2.head? ≠ some '/' ∧ (splitQuery url ('/' :: t)).2 = '/' :: t2 ∧
      (splitQuery url ('/' :: t)).1.Scheme = url.Scheme ∧
      (splitQuery url ('/' :: t)).1.Opaque = url.Opaque ∧
      (splitQuery url ('/' :: t)).1.User = url.User ∧
      (splitQuery url ('/' :: t)).1.Host = url.Host ∧
      (splitQuery url ('/' :: t)).1.OmitHost = url.OmitHost ∧
      (splitQuery url ('/' :: t)).1.Fragment = url.Fragment ∧
      (splitQuery url ('/' :: t)).1.RawFragment = url.RawFragment := by
  unfold splitQuery
  split
  · rename_i hq
    cases t with
    | nil => exact absurd hq (by decide)
    | cons a as =>
      refine ⟨(a :: as).dropLast, dropLast_head '/' _ ht, ?_, rfl, rfl, rfl, rfl, rfl, rfl, rfl⟩
      simp [List.dropLast]
  · refine ⟨(strings.Cut '?' t).1, Cut_fst_head '?' '/' t ht, ?_, rfl, rfl, rfl, rfl, rfl, rfl, rfl⟩
    simp only []
    conv_lhs => unfold strings.Cut
    rw [if_neg (by decide)]

theorem parseRest_root (url : URL) (hs : url.Scheme = []) (t : GoString)
    (ht : t.head? ≠ some '/') (r : URL) (h : parseRest url ('/' :: t) = some r) :
    r.Scheme = url.Scheme ∧ r.Opaque = url.Opaque ∧ r.User = url.User ∧ r.Host = url.Host ∧
    r.OmitHost = url.OmitHost ∧ r.ForceQuery = url.ForceQuery ∧ r.RawQuery = url.RawQuery ∧
    r.Fragment = url.Fragment ∧ r.RawFragment = url.RawFragment ∧
    r.Path.head? = some 47 ∧ (r.RawPath = [] ∨ r.RawPath.head? = some '/') := by
  unfold parseRest at h
  rw [HasPrefix_slash_cons, HasPrefix_slash2_cons t ht, hs] at h
  simp only [Bool.not_true, Bool.false_and, Bool.and_false, ne_eq, not_true_eq_false,
    decide_False, Bool.false_eq_true, if_false] at h
  exact hs ▸ setPath_root url t r h

theorem parse_root_relative (t : GoString) (ht : t.head? ≠ some '/') (r : URL)
    (h : parse ('/' :: t) = some r) :
    r.Scheme = [] ∧ r.Opaque = [] ∧ r.User = none ∧ r.Host = [] ∧ r.OmitHost = false ∧
    r.Fragment = [] ∧ r.RawFragment = [] ∧
    r.Path.head? = some 47 ∧ (r.RawPath = [] ∨ r.RawPath.head? = some '/') := by
  unfold parse at h
  split at h
  · simp at h
  · rw [if_neg (by simp)] at h
    rw [getScheme_slash] at h
    simp only [] at h
    obtain ⟨t2, ht2, hq, h1, h2, h3, h4, h5, h6, h7⟩ :=
      splitQuery_root { URL.zero with Scheme := strings.ToLower [] } t ht
    rw [hq] at h
    have := parseRest_root _ (by rw [h1]; rfl) t2 ht2 r h
    obtain ⟨g1, g2, g3, g4, g5, _, _, g8, g9, g10, g11⟩ := this
    refine ⟨?_, ?_, ?_, ?_, ?_, ?_, ?_, g10, g11⟩
    · rw [g1, h1]; rfl
    · rw [g2, h2]; rfl
    · rw [g3, h3]; rfl
    · rw [g4, h4]; rfl
    · rw [g5, h5]; rfl
    · rw [g8, h6]; rfl
    · rw [g9, h7]; rfl

theorem Parse_root_relative (t : GoString) (ht : t.head? ≠ some '/') (r : URL)
    (h : Parse ('/' :: t) = some r) :
    r.Scheme = [] ∧ r.Opaque = [] ∧ r.User = none ∧ r.Host = [] ∧ r.OmitHost = false ∧
    r.Path.head? = some 47 ∧ (r.RawPath = [] ∨ r.RawPath.head? = some '/') := by
  unfold Parse at h
  have hcut : (strings.Cut '#' ('/' :: t)).1 = '/' :: (strings.Cut '#' t).1 := by
    conv_lhs => unfold strings.Cut
    rw [if_neg (by decide)]
  simp only [hcut] at h
  cases hp : parse ('/' :: (strings.Cut '#' t).1) with
  | none => rw [hp] at h; simp at h
  | some r0 =>
    rw [hp] at h
    obtain ⟨g1, g2, g3, g4, g5, _, _, g8, g9⟩ :=
      parse_root_relative _ (Cut_fst_head '#' '/' t ht) r0 hp
    simp only [] at h
    split at h
    · have : r0 = r := by simpa using h
      subst this
      exact ⟨g1, g2, g3, g4, g5, g8, g9⟩
    · unfold URL.setFragment at h
      split at h
      · simp at h
      · have : _ = r := Option.some.inj h
        subst this
        exact ⟨g1, g2, g3, g4, g5, g8, g9⟩

theorem resolvePathStep_head (st : GoString × Bool) (elem : GoString)
    (h : st.1.head? = some '/') : (resolvePathStep st elem).1.head? = some '/' := by
  unfold resolvePathStep
  split
  · exact h
  · split
    · dsimp only
      split <;> rfl
    · cases hst : st.1 with
      | nil => rw [hst] at h; simp at h
      | cons a as =>
        rw [hst] at h
        have : a = '/' := by simpa using h
        subst this
        split <;> rfl

theorem foldl_resolvePathStep_head (elems : List GoString) :
    ∀ st : GoString × Bool, st.1.head? = some '/' →
      (elems.foldl resolvePathStep st).1.head? = some '/' := by
  induction elems with
  | nil => intro st h; exact h
  | cons e es ih =>
    intro st h
    rw [List.foldl_cons]
    exact ih _ (resolvePathStep_head st e h)

theorem resolvePath_head (base x : GoString) :
    (resolvePath base ('/' :: x)).head? = some '/' := by
  unfold resolvePath
  simp only [ne_eq, not_true_eq_false, if_false, reduceCtorEq]
  have hd := foldl_resolvePathStep_head (strings.Split '/' ('/' :: x)) ("/".toList, true) rfl
  generalize (List.foldl resolvePathStep ("/".toList, true) (strings.Split '/' ('/' :: x))).1 = dst
    at hd ⊢
  have hr : ∀ r : GoString, r.head? = some '/' →
      (match r with
        | _ :: '/' :: rest => '/' :: rest
        | _ => r).head? = some '/' := by
    intro r hr
    split
    · rfl
    · exact hr
  apply hr
  cases dst with
  | nil => simp at hd
  | cons a as =>
    split
    · exact hd
    · exact hd

theorem escape_path_slash (p : Bytes) :
    escape encodePath (47 :: p) = '/' :: escape encodePath p := by
  conv_lhs => unfold escape
  rw [if_neg (by decide), if_neg (by decide)]

theorem EscapedPath_head (u : URL) (h1 : u.Path.head? = some 47)
    (h2 : u.RawPath = [] ∨ u.RawPath.head? = some '/') : u.EscapedPath.head? = some '/' := by
  unfold URL.EscapedPath
  split
  · rename_i hc
    rcases h2 with h2 | h2
    · simp [h2] at hc
    · exact h2
  · split
    · rename_i hp
      rw [hp] at h1
      simp at h1
    · cases hp : u.Path with
      | nil => rw [hp] at h1; simp at h1
      | cons a as =>
        rw [hp] at h1
        have : a = 47 := by simpa using h1
        subst this
        rw [escape_path_slash]
        rfl

theorem setPathIgnoringError_root (u : URL) (x : GoString) (h1 : u.Path.head? = some 47)
    (h2 : u.RawPath = [] ∨ u.RawPath.head? = some '/') :
    (u.setPathIgnoringError ('/' :: x)).Scheme = u.Scheme ∧
    (u.setPathIgnoringError ('/' :: x)).Opaque = u.Opaque ∧
    (u.setPathIgnoringError ('/' :: x)).User = u.User ∧
    (u.setPathIgnoringError ('/' :: x)).Host = u.Host ∧
    (u.setPathIgnoringError ('/' :: x)).OmitHost = u.OmitHost ∧
    (u.setPathIgnoringError ('/' :: x)).ForceQuery = u.ForceQuery ∧
    (u.setPathIgnoringError ('/' :: x)).RawQuery = u.RawQuery ∧
    (u.setPathIgnoringError ('/' :: x)).Fragment = u.Fragment ∧
    (u.setPathIgnoringError ('/' :: x)).RawFragment = u.RawFragment ∧
    (u.setPathIgnoringError ('/' :: x)).Path.head? = some 47 ∧
    ((u.setPathIgnoringError ('/' :: x)).RawPath = [] ∨
      (u.setPathIgnoringError ('/' :: x)).RawPath.head? = some '/') := by
  unfold URL.setPathIgnoringError
  cases h : u.setPath ('/' :: x) with
  | none => exact ⟨rfl, rfl, rfl, rfl, rfl, rfl, rfl, rfl, rfl, h1, h2⟩
  | some v => exact setPath_root u x v h

theorem ResolveReference_root (b r : URL) (g1 : r.Scheme = []) (g2 : r.Opaque = [])
    (g3 : r.User = none) (g4 : r.Host = []) (g8 : r.Path.head? = some 47) :
    b.ResolveReference r =
      URL.setPathIgnoringError { r with Scheme := b.Scheme, Host := b.Host, User := b.User }
        (resolvePath b.EscapedPath r.EscapedPath) := by
  have hp : r.Path ≠ [] := by
    intro h0
    rw [h0] at g8
    simp at g8
  unfold URL.ResolveReference
  simp [g1, g2, g3, g4, hp]

theorem String_hierarchical (u : URL) (hs : u.Scheme ≠ []) (ho : u.Opaque = [])
    (hh : u.OmitHost = false) (hp : u.EscapedPath.head? = some '/') (hp2 : u.Path ≠ []) :
    u.String =
      u.Scheme ++ "://".toList ++
        (match u.User with
          | some ui => ui.String ++ "@".toList
          | none => []) ++
        escape encodeHost u.Host ++ u.EscapedPath ++
        (if u.ForceQuery || u.RawQuery ≠ [] then "?".toList ++ u.RawQuery else []) ++
        (if u.Fragment ≠ [] then "#".toList ++ u.EscapedFragment else []) := by
  unfold URL.String
  have he : ∀ buf : GoString,
      (if u.Host ≠ [] then buf ++ escape encodeHost u.Host else buf) =
        buf ++ escape encodeHost u.Host := by
    intro buf
    split
    · rfl
    · rename_i hn
      have : u.Host = [] := by simpa using hn
      rw [this]
      simp [escape]
  simp only [he]
  cases hu : u.User <;> simp [hs, ho, hh, hp, hp2] <;> split_ifs <;> simp

theorem HasPrefix_slash_iff (href : GoString) (h : strings.HasPrefix href "/".toList = true) :
    ∃ t, href = '/' :: t := by
  cases href with
  | nil => exact absurd h (by decide)
  | cons a as =>
    have : '/' = a := by simpa [strings.HasPrefix, List.isPrefixOf] using h
    exact ⟨as, by rw [this]⟩

theorem not_HasPrefix_slash2 (t : GoString)
    (h : strings.HasPrefix ('/' :: t) "//".toList = false) : t.head? ≠ some '/' := by
  cases t with
  | nil => simp
  | cons a as =>
    intro ha
    have : a = '/' := by simpa using ha
    subst this
    simp [strings.HasPrefix, List.isPrefixOf] at h

theorem isAbsoluteURL_slash (t : GoString) : isAbsoluteURL ('/' :: t) = false := rfl

theorem resolve_root_relative (u href : GoString) (links : List GoString) (b r : URL)
    (hb : Parse u = some b) (hs : b.Scheme ≠ [])
    (h1 : strings.HasPrefix href "/".toList = true)
    (h2 : strings.HasPrefix href "//".toList = false)
    (hr : Parse href = some r) :
    collectLink u href links = links ++ [(b.ResolveReference r).String] ∧
    (b.ResolveReference r).Scheme = b.Scheme ∧
    (b.ResolveReference r).Host = b.Host ∧
    (b.ResolveReference r).User = b.User ∧
    (b.ResolveReference r).ForceQuery = r.ForceQuery ∧
    (b.ResolveReference r).RawQuery = r.RawQuery ∧
    (b.ResolveReference r).Fragment = r.Fragment ∧
    (b.ResolveReference r).EscapedPath.head? = some '/' ∧
    (∀ p, unescape encodePath (resolvePath [] r.EscapedPath) = some p →
      (b.ResolveReference r).Path = p) ∧
    (b.ResolveReference r).String =
      b.Scheme ++ "://".toList ++
        (match b.User with
          | some ui => ui.String ++ "@".toList
          | none => []) ++
        escape encodeHost b.Host ++ (b.ResolveReference r).EscapedPath ++
        (if r.ForceQuery || r.RawQuery ≠ [] then "?".toList ++ r.RawQuery else []) ++
        (if r.Fragment ≠ [] then "#".toList ++ r.EscapedFragment else []) := by
  obtain ⟨t, rfl⟩ := HasPrefix_slash_iff href h1
  have ht := not_HasPrefix_slash2 t h2
  obtain ⟨g1, g2, g3, g4, g5, g8, g9⟩ := Parse_root_relative t ht r hr
  have hc : collectLink u ('/' :: t) links = links ++ [(b.ResolveReference r).String] := by
    unfold collectLink
    rw [isAbsoluteURL_slash, h1, hb, hr]
    rfl
  have hrp : ∃ x, resolvePath b.EscapedPath r.EscapedPath = '/' :: x ∧
      resolvePath [] r.EscapedPath = '/' :: x := by
    have he := EscapedPath_head r g8 g9
    cases hre : r.EscapedPath with
    | nil => rw [hre] at he; simp at he
    | cons a as =>
      rw [hre] at he
      have : a = '/' := by simpa using he
      subst this
      have hh := resolvePath_head b.EscapedPath as
      cases hx : resolvePath b.EscapedPath ('/' :: as) with
      | nil => rw [hx] at hh; simp at hh
      | cons c cs =>
        rw [hx] at hh
        have : c = '/' := by simpa using hh
        subst this
        exact ⟨cs, rfl, hx⟩
  obtain ⟨x, hx, hx0⟩ := hrp
  have hres := ResolveReference_root b r g1 g2 g3 g4 g8
  rw [hx] at hres
  obtain ⟨k1, k2, k3, k4, k5, k6, k7, k8, k9, k10, k11⟩ :=
    setPathIgnoringError_root { r with Scheme := b.Scheme, Host := b.Host, User := b.User } x
      g8 g9
  rw [← hres] at k1 k2 k3 k4 k5 k6 k7 k8 k9 k10 k11
  have hep := EscapedPath_head _ k10 k11
  have hpne : (b.ResolveReference r).Path ≠ [] := by
    intro h0
    rw [h0] at k10
    simp at k10
  have hfrag : (b.ResolveReference r).EscapedFragment = r.EscapedFragment := by
    unfold URL.EscapedFragment
    rw [k8, k9]
  refine ⟨hc, k1, k4, k3, k6, k7, k8, hep, ?_, ?_⟩
  · intro p hp
    rw [hx0] at hp
    rw [hres]
    unfold URL.setPathIgnoringError URL.setPath
    rw [hp]
    rfl
  · rw [String_hierarchical _ (by rw [k1]; exact hs) (by rw [k2]; exact g2)
      (by rw [k5]; exact g5) hep hpne]
    rw [k1, k3, k4, k6, k7, k8, hfrag]

theorem oneOf_cases (c : Char) (h : oneOf c "-_.~$&+,/:;=@" = true) :
    c = '-' ∨ c = '_' ∨ c = '.' ∨ c = '~' ∨ c = '$' ∨ c = '&' ∨ c = '+' ∨ c = ',' ∨ c = '/' ∨
    c = ':' ∨ c = ';' ∨ c = '=' ∨ c = '@' := by
  simpa [oneOf] using h

theorem plainChar_facts (c : Char) (h : plainChar c = true) :
    shouldEscape c encodePath = false ∧ c.toNat ≤ 127 ∧ 32 ≤ c.toNat ∧ c.toNat ≠ 127 ∧
    c ≠ '%' ∧ c ≠ '?' ∧ c ≠ '#' := by
  unfold plainChar at h
  rcases Bool.or_eq_true _ _ ▸ h with h | h
  · have hn : (97 ≤ c.toNat ∧ c.toNat ≤ 122) ∨ (65 ≤ c.toNat ∧ c.toNat ≤ 90) ∨
        (48 ≤ c.toNat ∧ c.toNat ≤ 57) := by
      simpa [isAlnum, or_assoc] using h
    refine ⟨by simp [shouldEscape, h], by omega, by omega, by omega, ?_, ?_, ?_⟩
    all_goals
      intro hc
      subst hc
      revert hn
      decide
  · rcases oneOf_cases c h with h | h | h | h | h | h | h | h | h | h | h | h | h <;>
      subst h <;> decide

theorem unescape_plain (s : GoString) (h : s.all plainChar = true) :
    unescape encodePath s = some (s.map Char.toNat) := by
  induction s with
  | nil => rfl
  | cons c rest ih =>
    rw [List.all_cons, Bool.and_eq_true] at h
    obtain ⟨f1, f2, _, _, f5, _, _⟩ := plainChar_facts c h.1
    conv_lhs => unfold unescape
    rw [if_neg f5, ih h.2]
    by_cases hp : c = '+'
    · subst hp
      rfl
    · rw [if_neg hp, if_neg (by simp)]
      have : utf8EncodeChar c = [c.toNat] := by
        unfold utf8EncodeChar
        simp [f2]
      rw [this]
      rfl

theorem escape_plain (s : GoString) (h : s.all plainChar = true) :
    escape encodePath (s.map Char.toNat) = s := by
  induction s with
  | nil => rfl
  | cons c rest ih =>
    rw [List.all_cons, Bool.and_eq_true] at h
    obtain ⟨f1, _, _, _, _, _, _⟩ := plainChar_facts c h.1
    rw [List.map_cons]
    conv_lhs => unfold escape
    rw [if_neg (by simp), Char.ofNat_toNat, f1, ih h.2]
    rfl

theorem Cut_not_mem (sep : Char) (s : GoString) (h : sep ∉ s) :
    strings.Cut sep s = (s, [], false) := by
  induction s with
  | nil => rfl
  | cons c rest ih =>
    rw [List.mem_cons, not_or] at h
    unfold strings.Cut
    rw [if_neg (Ne.symm h.1), ih h.2]

theorem plain_not_mem (s : GoString) (h : s.all plainChar = true) (c : Char)
    (hc : c = '%' ∨ c = '?' ∨ c = '#') : c ∉ s := by
  intro hm
  have := plainChar_facts c (List.all_eq_true.mp h c hm)
  rcases hc with hc | hc | hc
  · exact this.2.2.2.2.1 hc
  · exact this.2.2.2.2.2.1 hc
  · exact this.2.2.2.2.2.2 hc

theorem plain_no_CTL (s : GoString) (h : s.all plainChar = true) :
    stringContainsCTLByte s = false := by
  unfold stringContainsCTLByte
  rw [List.any_eq_false]
  intro c hc
  have := plainChar_facts c (List.all_eq_true.mp h c hc)
  simp
  omega

theorem HasSuffix_singleton_mem (s : GoString) (c : Char)
    (h : strings.HasSuffix s [c] = true) : c ∈ s := by
  unfold strings.HasSuffix at h
  have : [c] <:+ s := by simpa using h
  exact this.subset (List.mem_singleton_self c)

theorem setPath_plain (u : URL) (s : GoString) (h : s.all plainChar = true) :
    URL.setPath u s = some { u with Path := s.map Char.toNat, RawPath := [] } := by
  unfold URL.setPath
  rw [unescape_plain s h]
  simp only [escape_plain s h, if_true]

theorem Parse_plain (t : GoString) (ht : t.head? ≠ some '/')
    (h : ('/' :: t).all plainChar = true) :
    Parse ('/' :: t) = some { URL.zero with Path := ('/' :: t).map Char.toNat } := by
  have hcut := Cut_not_mem '#' ('/' :: t) (plain_not_mem _ h '#' (by simp))
  have hq : '?' ∉ '/' :: t := plain_not_mem _ h '?' (by simp)
  unfold Parse
  rw [hcut]
  simp only []
  have hparse : parse ('/' :: t) = some { URL.zero with Path := ('/' :: t).map Char.toNat } := by
    unfold parse
    rw [plain_no_CTL _ h, getScheme_slash]
    simp only [Bool.false_eq_true, if_false]
    rw [if_neg (by simp)]
    have hsq : splitQuery { URL.zero with Scheme := strings.ToLower [] } ('/' :: t) =
        ({ URL.zero with Scheme := strings.ToLower [] }, '/' :: t) := by
      unfold splitQuery
      rw [if_neg]
      · rw [Cut_not_mem '?' _ hq]
        rfl
      · intro hc
        rw [Bool.and_eq_true] at hc
        exact hq (HasSuffix_singleton_mem _ _ hc.1)
    rw [hsq]
    unfold parseRest
    rw [HasPrefix_slash_cons, HasPrefix_slash2_cons t ht]
    simp only [Bool.not_true, Bool.false_and, Bool.and_false, Bool.false_eq_true, if_false]
    rw [if_neg (by simp [strings.ToLower])]
    rw [setPath_plain _ _ h]
    rfl
  rw [hparse]
  rfl

theorem foldl_resolvePathStep_plain (ls : List GoString)
    (h : ∀ e ∈ ls, e ≠ ".".toList ∧ e ≠ "..".toList) :
    ∀ d : GoString,
      ls.foldl resolvePathStep (d, false) = (d ++ ls.flatMap (fun e => '/' :: e), false) := by
  induction ls with
  | nil => intro d; simp
  | cons e es ih =>
    intro d
    have he := h e (List.mem_cons_self e es)
    rw [List.foldl_cons]
    have hstep : resolvePathStep (d, false) e = (d ++ "/".toList ++ e, false) := by
      unfold resolvePathStep
      rw [if_neg he.1, if_neg he.2]
      rfl
    rw [hstep, ih (fun x hx => h x (List.mem_cons_of_mem e hx))]
    simp

theorem flatMap_Split (t : GoString) :
    (strings.Split '/' t).flatMap (fun e => '/' :: e) = '/' :: t := by
  induction t with
  | nil => rfl
  | cons c cs ih =>
    unfold strings.Split
    by_cases hc : c = '/'
    · rw [if_pos hc, List.flatMap_cons, ih, hc]
      rfl
    · rw [if_neg hc]
      cases hs : strings.Split '/' cs with
      | nil => rw [hs] at ih; simp at ih
      | cons l ls =>
        rw [hs] at ih
        simp only [List.flatMap_cons, List.cons_append, List.cons.injEq, true_and] at ih ⊢
        rw [ih]

theorem Split_ne_nil (sep : Char) (t : GoString) : strings.Split sep t ≠ [] := by
  cases t with
  | nil => simp [strings.Split]
  | cons c cs =>
    unfold strings.Split
    split
    · simp
    · split <;> simp

theorem getLastD_mem (l : List GoString) (d : GoString) (h : l ≠ []) : l.getLastD d ∈ l := by
  cases l with
  | nil => exact absurd rfl h
  | cons a as => exact List.getLast_mem _

theorem resolvePath_plain (base t : GoString)
    (h : ∀ e ∈ strings.Split '/' ('/' :: t), e ≠ ".".toList ∧ e ≠ "..".toList) :
    resolvePath base ('/' :: t) = '/' :: t := by
  have hsplit : strings.Split '/' ('/' :: t) = [] :: strings.Split '/' t := by
    conv_lhs => unfold strings.Split
    rw [if_pos rfl]
  have hlast := h ((strings.Split '/' ('/' :: t)).getLastD [])
    (getLastD_mem _ _ (Split_ne_nil '/' ('/' :: t)))
  unfold resolvePath
  simp only [ne_eq, not_true_eq_false, if_false, reduceCtorEq]
  rw [if_neg]
  · rw [hsplit] at h ⊢
    rw [List.foldl_cons]
    have h0 : resolvePathStep ("/".toList, true) [] = ("/".toList, false) := by decide
    rw [h0, foldl_resolvePathStep_plain _ (fun e he => h e (List.mem_cons_of_mem _ he)),
      flatMap_Split]
    rfl
  · intro hc
    rw [Bool.or_eq_true, decide_eq_true_eq, decide_eq_true_eq] at hc
    rcases hc with hc | hc
    · exact hlast.1 hc
    · exact hlast.2 hc

theorem EscapedPath_plain (u : URL) (t : GoString) (h : ('/' :: t).all plainChar = true)
    (hP : u.Path = ('/' :: t).map Char.toNat) (hR : u.RawPath = []) :
    u.EscapedPath = '/' :: t := by
  unfold URL.EscapedPath
  rw [hR, if_neg (by simp), hP, if_neg (by simp), escape_plain _ h]

theorem ResolveReference_plain (b : URL) (t : GoString) (ht : t.head? ≠ some '/')
    (h : ('/' :: t).all plainChar = true)
    (hd : ∀ e ∈ strings.Split '/' ('/' :: t), e ≠ ".".toList ∧ e ≠ "..".toList) (r : URL)
    (hr : Parse ('/' :: t) = some r) :
    b.ResolveReference r =
      { URL.zero with
        Scheme := b.Scheme, Host := b.Host, User := b.User,
        Path := ('/' :: t).map Char.toNat } := by
  rw [Parse_plain t ht h] at hr
  have hr' := (Option.some.inj hr).symm
  subst hr'
  rw [ResolveReference_root b { URL.zero with Path := ('/' :: t).map Char.toNat }
      rfl rfl rfl rfl rfl,
    EscapedPath_plain { URL.zero with Path := ('/' :: t).map Char.toNat } t h rfl rfl,
    resolvePath_plain _ t hd]
  unfold URL.setPathIgnoringError
  rw [setPath_plain _ _ h]
  rfl

theorem String_plain (b : URL) (hs : b.Scheme ≠ []) (t : GoString)
    (h : ('/' :: t).all plainChar = true) :
    URL.String
      { URL.zero with
        Scheme := b.Scheme, Host := b.Host, User := b.User,
        Path := ('/' :: t).map Char.toNat } =
      b.Scheme ++ "://".toList ++
        (match b.User with
          | some ui => ui.String ++ "@".toList
          | none => []) ++
        escape encodeHost b.Host ++ '/' :: t := by
  have he := EscapedPath_plain
    { URL.zero with
      Scheme := b.Scheme, Host := b.Host, User := b.User,
      Path := ('/' :: t).map Char.toNat } t h rfl rfl
  rw [String_hierarchical
    { URL.zero with
      Scheme := b.Scheme, Host := b.Host, User := b.User,
      Path := ('/' :: t).map Char.toNat } hs rfl rfl (by rw [he]; rfl) (by simp), he]
  simp [URL.zero]

theorem plainHost_chars (h : GoString) (hp : plainHost h = true) :
    ∀ c ∈ h, isAlnum c = true ∨ c = '-' ∨ c = '.' ∨ c = ':' := by
  unfold plainHost at hp
  rw [Bool.and_eq_true] at hp
  obtain ⟨hname, hport⟩ := hp
  intro c hc
  rw [← List.takeWhile_append_dropWhile (fun c => c ≠ ':') h, List.mem_append] at hc
  rcases hc with hc | hc
  · have := List.all_eq_true.mp hname c hc
    unfold hostChar at this
    have h3 : isAlnum c = true ∨ c = '-' ∨ c = '.' := by simpa [or_assoc] using this
    rcases h3 with h3 | h3 | h3
    · exact Or.inl h3
    · exact Or.inr (Or.inl h3)
    · exact Or.inr (Or.inr (Or.inl h3))
  · cases hd : h.dropWhile (fun c => c ≠ ':') with
    | nil => rw [hd] at hc; simp at hc
    | cons d rest =>
      rw [hd] at hc hport
      rcases List.mem_cons.mp hc with hc | hc
      · have hdn := List.head_dropWhile_not (fun c => decide (c ≠ ':')) h
          (by rw [hd]; simp)
        simp only [hd, List.head_cons] at hdn
        right; right; right
        rw [hc]
        simpa using hdn
      · have := List.all_eq_true.mp hport c (by simpa using hc)
        left
        unfold isAlnum
        simp only [Bool.and_eq_true, decide_eq_true_eq] at this
        simp [this.1, this.2]

theorem escape_host_plain (h : GoString)
    (hp : ∀ c ∈ h, isAlnum c = true ∨ c = '-' ∨ c = '.' ∨ c = ':') :
    escape encodeHost (h.map Char.toNat) = h := by
  induction h with
  | nil => rfl
  | cons c rest ih =>
    have hc := hp c (List.mem_cons_self c rest)
    have hs : shouldEscape c encodeHost = false := by
      rcases hc with hc | hc | hc | hc
      · simp [shouldEscape, hc]
      · subst hc; decide
      · subst hc; decide
      · subst hc; decide
    rw [List.map_cons]
    conv_lhs => unfold escape
    rw [if_neg (by simp), Char.ofNat_toNat, hs, ih (fun x hx => hp x (List.mem_cons_of_mem c hx))]
    rfl

end url

/-! ## The claims -/

/-- C1: the report has exactly as many pages as there are input URLs, and
the i-th page carries the i-th input string, unchanged, as its URL, whatever
the fetches and the probes answer. -/
theorem report_pages_follow_input (env : Env) (urls : List GoString) :
    (audit env urls).Pages.length = urls.length ∧
    (audit env urls).Pages.map PageReport.URL = urls ∧
    ∀ i : Nat, ((audit env urls).Pages[i]?).map PageReport.URL = urls[i]? := by
  have hmap : (audit env urls).Pages.map PageReport.URL = urls := by
    rw [audit_pages, List.map_map]
    have : (PageReport.URL ∘ fun p : Nat × GoString => auditPage env p.1 p.2) = Prod.snd := by
      funext p
      simp [auditPage_URL]
    rw [this, List.enum_map_snd]
  refine ⟨?_, hmap, ?_⟩
  · have := congrArg List.length hmap
    simpa using this
  · intro i
    rw [← List.getElem?_map, hmap]

/-- C2 as stated fails: on the page `http://a.com/p` the href `//b.com/x`
begins with `/` and parses, and the candidate collected is `http://b.com/x`,
whose host is `b.com`, not the host `a.com` of the page. -/
theorem protocol_relative_href_takes_other_host :
    (url.Parse "http://a.com/p".toList).map (fun b => (b.Scheme, b.Host)) =
      some ("http".toList, url.utf8Encode "a.com".toList) ∧
    strings.HasPrefix "//b.com/x".toList "/".toList = true ∧
    (url.Parse "//b.com/x".toList).isSome = true ∧
    collectLink "http://a.com/p".toList "//b.com/x".toList [] = ["http://b.com/x".toList] ∧
    (url.Parse "http://b.com/x".toList).map (fun a => (a.Scheme, a.Host)) =
      some ("http".toList, url.utf8Encode "b.com".toList) ∧
    url.utf8Encode "b.com".toList ≠ url.utf8Encode "a.com".toList := by
  decide

/-- C2, amended: on a page URL that parses to `b` with a scheme and a plain
host `h` (letters, digits, `-`, `.`, an optional decimal port), for an href
that begins with `/` but not with `//` and parses to `r`, the anchor callback
appends exactly one candidate: the scheme of the page, `://`, its user info,
the host `h`, a path that begins with `/`, and the query and the fragment of
the href. When the href holds plain path characters only and has no `.` or
`..` element, the candidate is the scheme, `://`, the user info and the host
of the page followed by the href as it is. -/
theorem root_relative_href_resolved (u href h : GoString) (links : List GoString)
    (b r : url.URL) (hb : url.Parse u = some b) (hs : b.Scheme ≠ [])
    (hh : b.Host = h.map Char.toNat) (hplain : plainHost h = true)
    (h1 : strings.HasPrefix href "/".toList = true)
    (h2 : strings.HasPrefix href "//".toList = false)
    (hr : url.Parse href = some r) :
    (∃ path : GoString, path.head? = some '/' ∧
      collectLink u href links = links ++
        [b.Scheme ++ "://".toList ++
          (match b.User with
            | some ui => ui.String ++ "@".toList
            | none => []) ++
          h ++ path ++
          (if r.ForceQuery || r.RawQuery ≠ [] then "?".toList ++ r.RawQuery else []) ++
          (if r.Fragment ≠ [] then "#".toList ++ r.EscapedFragment else [])]) ∧
    (href.all plainChar = true →
      (∀ e ∈ strings.Split '/' href, e ≠ ".".toList ∧ e ≠ "..".toList) →
      collectLink u href links = links ++
        [b.Scheme ++ "://".toList ++
          (match b.User with
            | some ui => ui.String ++ "@".toList
            | none => []) ++
          h ++ href]) := by
  have hhost : url.escape url.encoding.encodeHost b.Host = h := by
    rw [hh]
    exact url.escape_host_plain h (url.plainHost_chars h hplain)
  obtain ⟨k1, _, _, _, _, _, _, k8, _, k10⟩ :=
    url.resolve_root_relative u href links b r hb hs h1 h2 hr
  refine ⟨⟨(b.ResolveReference r).EscapedPath, k8, ?_⟩, ?_⟩
  · rw [k1, k10, hhost]
  · intro hpl hdots
    obtain ⟨t, rfl⟩ := url.HasPrefix_slash_iff href h1
    have ht := url.not_HasPrefix_slash2 t h2
    rw [k1, url.ResolveReference_plain b t ht hpl hdots r hr, url.String_plain b hs t hpl,
      hhost]

/-- Witness of C2, amended: the href `/x` on the page `http://a.com/p` gives
the candidate `http://a.com/x`. -/
theorem root_relative_href_resolved_witness :
    collectLink "http://a.com/p".toList "/x".toList [] = ["http://a.com/x".toList] :=
  (root_relative_href_resolved "http://a.com/p".toList "/x".toList "a.com".toList []
    { url.URL.zero with
      Scheme := "http".toList, Host := url.utf8Encode "a.com".toList,
      Path := url.utf8Encode "/p".toList }
    { url.URL.zero with Path := url.utf8Encode "/x".toList }
    (by decide) (by decide) (by decide) (by decide) (by decide) (by decide)
    (by decide)).2 (by decide) (by decide)

/-- C3: for an href that begins with `http://` or `https://`, on any page URL
(also one that does not parse), the anchor callback appends exactly one
candidate link, the href unchanged. -/
theorem absolute_href_collected_unchanged (u : GoString) (e : HTMLElement) (st : PageState)
    (h : strings.HasPrefix (e.Attr "href".toList) "http://".toList = true ∨
         strings.HasPrefix (e.Attr "href".toList) "https://".toList = true) :
    collectLink u (e.Attr "href".toList) st.links = st.links ++ [e.Attr "href".toList] ∧
    onAnchor u e st = { st with links := st.links ++ [e.Attr "href".toList] } := by
  have hc : collectLink u (e.Attr "href".toList) st.links =
      st.links ++ [e.Attr "href".toList] := by
    have habs : isAbsoluteURL (e.Attr "href".toList) = true := by
      unfold isAbsoluteURL
      rcases h with h | h <;> rw [h] <;> simp
    unfold collectLink
    rw [if_pos habs]
  exact ⟨hc, by unfold onAnchor; rw [hc]⟩

/-- Witness of C3: the anchor `href="http://b.com/y"` on the page `::`, which
does not parse, gives the candidate `http://b.com/y`. -/
theorem absolute_href_collected_unchanged_witness :
    url.Parse "::".toList = none ∧
    onAnchor "::".toList
        { Name := "a".toList, Text := [], attributes := [("href".toList, "http://b.com/y".toList)] }
        { page := newPage "::".toList, links := [] } =
      { page := newPage "::".toList, links := ["http://b.com/y".toList] } :=
  ⟨by decide,
   (absolute_href_collected_unchanged "::".toList
      { Name := "a".toList, Text := [], attributes := [("href".toList, "http://b.com/y".toList)] }
      { page := newPage "::".toList, links := [] } (Or.inl (by decide))).2⟩

/-- C4: for an href that begins with none of `http://`, `https://` and `/`,
the anchor callback leaves the candidate links as they are, so that nothing
is probed for it. -/
theorem other_href_dropped (u : GoString) (e : HTMLElement) (st : PageState)
    (h1 : strings.HasPrefix (e.Attr "href".toList) "http://".toList = false)
    (h2 : strings.HasPrefix (e.Attr "href".toList) "https://".toList = false)
    (h3 : strings.HasPrefix (e.Attr "href".toList) "/".toList = false) :
    collectLink u (e.Attr "href".toList) st.links = st.links ∧ onAnchor u e st = st := by
  have hc : collectLink u (e.Attr "href".toList) st.links = st.links := by
    have habs : ¬ isAbsoluteURL (e.Attr "href".toList) = true := by
      unfold isAbsoluteURL
      rw [h1, h2]
      simp
    unfold collectLink
    rw [if_neg habs, h3]
    rfl
  exact ⟨hc, by unfold onAnchor; rw [hc]⟩

/-- Witness of C4: the anchor `href="mailto:joe@a.com"` adds no candidate. -/
theorem other_href_dropped_witness :
    onAnchor "http://a.com/p".toList
        { Name := "a".toList, Text := [],
          attributes := [("href".toList, "mailto:joe@a.com".toList)] }
        { page := newPage "http://a.com/p".toList, links := ["http://b.com/y".toList] } =
      { page := newPage "http://a.com/p".toList, links := ["http://b.com/y".toList] } :=
  (other_href_dropped "http://a.com/p".toList
      { Name := "a".toList, Text := [],
        attributes := [("href".toList, "mailto:joe@a.com".toList)] }
      { page := newPage "http://a.com/p".toList, links := ["http://b.com/y".toList] }
      (by decide) (by decide) (by decide)).2

/-- C5: a probe that returns a response with status `c >= 400` and no error
appends exactly one entry, `<url> [status: <c>]` with `c` in decimal, and no
`[error: ...]` text follows it. -/
theorem status_entry (link : GoString) (c : Int) (page : PageReport) (hc : c ≥ 400) :
    checkLink (HeadResult.response c) link page =
      { page with BrokenLinks :=
          page.BrokenLinks ++ [link ++ " [status: ".toList ++ Sprint c ++ "]".toList] } ∧
    Sprint c = Nat.toDigits 10 c.toNat ∧
    ∀ msg : GoString,
      link ++ " [status: ".toList ++ Sprint c ++ "]".toList ≠
        link ++ " [status: ".toList ++ Sprint c ++ "]".toList ++ " [error: ".toList ++ msg ++
          "]".toList := by
  refine ⟨?_, ?_, ?_⟩
  · unfold checkLink
    simp [HeadResult.err, HeadResult.resp, hc]
  · obtain ⟨n, rfl⟩ := Int.eq_ofNat_of_zero_le (by omega : (0 : Int) ≤ c)
    rfl
  · intro msg h
    have := congrArg List.length h
    simp at this

/-- Witness of C5: a 404 on `http://b.com/y`. -/
theorem status_entry_witness :
    checkLink (HeadResult.response 404) "http://b.com/y".toList (newPage "http://a.com/p".toList) =
      { newPage "http://a.com/p".toList with
        BrokenLinks := ["http://b.com/y [status: 404]".toList] } :=
  (status_entry "http://b.com/y".toList 404 (newPage "http://a.com/p".toList) (by decide)).1

/-- C6 as stated fails: when the redirect policy of the client fails (the
default client stops after 10 redirects), `Head` returns the last response
together with the error, and the entry shows the status of that response,
here 302, not 0. -/
theorem error_with_response_shows_its_status :
    (HeadResult.responseAndError 302 "stopped after 10 redirects".toList).err =
      some "stopped after 10 redirects".toList ∧
    checkLink (HeadResult.responseAndError 302 "stopped after 10 redirects".toList)
        "http://b.com/r".toList (newPage "http://a.com/p".toList) =
      { newPage "http://a.com/p".toList with
        BrokenLinks :=
          ["http://b.com/r [status: 302] [error: stopped after 10 redirects]".toList] } ∧
    "http://b.com/r [status: 302] [error: stopped after 10 redirects]".toList ≠
      "http://b.com/r [status: 0] [error: stopped after 10 redirects]".toList := by
  decide

/-- C6, amended: a probe that returns an error with a non-empty text appends
exactly one entry, `<url> [status: <s>] [error: <error text>]`, where `s` is
the status of the response that came with the error and 0 when there is no
response. -/
theorem error_entry (r : HeadResult) (link msg : GoString) (page : PageReport)
    (herr : r.err = some msg) (hmsg : msg ≠ []) :
    checkLink r link page =
      { page with BrokenLinks := page.BrokenLinks ++
          [link ++ " [status: ".toList ++ Sprint (r.resp.getD 0) ++ "]".toList ++
            " [error: ".toList ++ msg ++ "]".toList] } ∧
    (r.resp = none →
      checkLink r link page =
        { page with BrokenLinks := page.BrokenLinks ++
            [link ++ " [status: 0] [error: ".toList ++ msg ++ "]".toList] }) := by
  have key : checkLink r link page =
      { page with BrokenLinks := page.BrokenLinks ++
          [link ++ " [status: ".toList ++ Sprint (r.resp.getD 0) ++ "]".toList ++
            " [error: ".toList ++ msg ++ "]".toList] } := by
    unfold checkLink
    cases hr : r.resp <;> simp [herr, hmsg]
  refine ⟨key, ?_⟩
  intro hnone
  rw [key, hnone]
  have : Sprint ((none : Option Int).getD 0) = "0".toList := by decide
  rw [this]
  simp

/-- Witness of C6, amended: a failed DNS lookup. -/
theorem error_entry_witness :
    checkLink (HeadResult.error "no such host".toList) "http://b.com/y".toList
        (newPage "http://a.com/p".toList) =
      { newPage "http://a.com/p".toList with
        BrokenLinks := ["http://b.com/y [status: 0] [error: no such host]".toList] } :=
  (error_entry (HeadResult.error "no such host".toList) "http://b.com/y".toList
    "no such host".toList (newPage "http://a.com/p".toList) rfl (by decide)).2 rfl

/-- C7: a page whose fetch returns an error is reported with the title
`[ERROR] Could not fetch page`, an empty meta description, no headings and no
broken links. -/
theorem failed_fetch_page (env : Env) (urls : List GoString) (i : Nat) (u err : GoString)
    (hu : urls[i]? = some u) (h : env.Visit i u = FetchResult.failed err) :
    auditPage env i u =
      { URL := u, Title := "[ERROR] Could not fetch page".toList, MetaDesc := [],
        Headings := [], BrokenLinks := [] } ∧
    (audit env urls).Pages[i]? =
      some { URL := u, Title := "[ERROR] Could not fetch page".toList, MetaDesc := [],
             Headings := [], BrokenLinks := [] } := by
  have hp : auditPage env i u =
      { URL := u, Title := "[ERROR] Could not fetch page".toList, MetaDesc := [],
        Headings := [], BrokenLinks := [] } := by
    unfold auditPage
    rw [h, visitPage_failed]
    rfl
  refine ⟨hp, ?_⟩
  rw [audit_pages, List.getElem?_map, List.getElem?_enum, hu]
  simp [hp]

/-- Witness of C7: the second URL of a run fails to load. -/
theorem failed_fetch_page_witness :
    (audit
        { ReadFile := fun _ => Except.error [],
          Visit := fun i _ =>
            if i = 1 then FetchResult.failed "Not Found".toList else FetchResult.fetched [],
          Head := fun _ _ _ => HeadResult.response 200 }
        ["http://a.com/p".toList, "http://a.com/q".toList]).Pages[1]? =
      some { URL := "http://a.com/q".toList, Title := "[ERROR] Could not fetch page".toList,
             MetaDesc := [], Headings := [], BrokenLinks := [] } :=
  (failed_fetch_page
    { ReadFile := fun _ => Except.error [],
      Visit := fun i _ =>
        if i = 1 then FetchResult.failed "Not Found".toList else FetchResult.fetched [],
      Head := fun _ _ _ => HeadResult.response 200 }
    ["http://a.com/p".toList, "http://a.com/q".toList] 1 "http://a.com/q".toList
    "Not Found".toList rfl rfl).2

/-- C8: the headings of a page are, for the levels h1 to h6 in this order,
one entry per element of the level in document order whose trimmed text is
not empty: the level in upper case, `: ` and the trimmed text. -/
theorem headings_by_level (env : Env) (i : Nat) (u : GoString) (doc : Document)
    (h : env.Visit i u = FetchResult.fetched doc) :
    (auditPage env i u).Headings =
      ["h1".toList, "h2".toList, "h3".toList, "h4".toList, "h5".toList, "h6".toList].flatMap
        (fun level =>
          ((doc.filter (fun e => e.Name = level)).filter
              (fun e => strings.TrimSpace e.Text ≠ [])).map
            (fun e => strings.ToUpper level ++ ": ".toList ++ strings.TrimSpace e.Text)) := by
  have hfm : ∀ (level : GoString) (l : List HTMLElement),
      l.filterMap (headingEntry level) =
        (l.filter (fun e => strings.TrimSpace e.Text ≠ [])).map
          (fun e => strings.ToUpper level ++ ": ".toList ++ strings.TrimSpace e.Text) := by
    intro level l
    induction l with
    | nil => rfl
    | cons e l ih =>
      by_cases ht : strings.TrimSpace e.Text = []
      · have h1 : headingEntry level e = none := by simp [headingEntry, ht]
        simp [List.filterMap_cons, h1, ht, List.filter_cons, ih]
      · have h1 : headingEntry level e =
            some (strings.ToUpper level ++ ": ".toList ++ strings.TrimSpace e.Text) := by
          simp [headingEntry, ht]
        simp [List.filterMap_cons, h1, ht, List.filter_cons, ih]
  obtain ⟨t, m, hv⟩ := visitPage_fetched doc u
  unfold auditPage
  rw [h, checkLinks_eq, hv]
  simp only [headingLevels, headingElements, hfm]

/-- Witness of C8: the document `<h2>B</h2><h1>A</h1>` gives the headings
`H1: A`, `H2: B`. -/
theorem headings_by_level_witness :
    (auditPage
        { ReadFile := fun _ => Except.error [],
          Visit := fun _ _ => FetchResult.fetched
            [{ Name := "h2".toList, Text := "B".toList, attributes := [] },
             { Name := "h1".toList, Text := "A".toList, attributes := [] }],
          Head := fun _ _ _ => HeadResult.response 200 }
        0 "http://a.com/p".toList).Headings = ["H1: A".toList, "H2: B".toList] :=
  (headings_by_level
    { ReadFile := fun _ => Except.error [],
      Visit := fun _ _ => FetchResult.fetched
        [{ Name := "h2".toList, Text := "B".toList, attributes := [] },
         { Name := "h1".toList, Text := "A".toList, attributes := [] }],
      Head := fun _ _ _ => HeadResult.response 200 }
    0 "http://a.com/p".toList
    [{ Name := "h2".toList, Text := "B".toList, attributes := [] },
     { Name := "h1".toList, Text := "A".toList, attributes := [] }] rfl).trans (by decide)

/-- C9: the broken links of a page come from its candidate links, in
discovery order: every occurrence whose probe is broken (an error, or a
status of 400 or more) gives exactly one entry, every other occurrence none.
Occurrences are not deduplicated: a URL whose probes are broken and that
occurs k times gives k entries. There are never more entries than
candidates. -/
theorem broken_links_per_occurrence (env : Env) (i : Nat) (u : GoString) :
    (auditPage env i u).BrokenLinks =
      (List.enum (visitPage (env.Visit i u) u).links).flatMap
        (fun p => probeEntries (env.Head i p.1 p.2) p.2) ∧
    (∀ (r : HeadResult) (link : GoString),
      (isBroken r = true → ∃ d, probeEntries r link = [d]) ∧
      (isBroken r = false → probeEntries r link = [])) ∧
    (∀ r : HeadResult, isBroken r = true ↔
      (r.err ≠ none ∨ ∃ c : Int, r = HeadResult.response c ∧ c ≥ 400)) ∧
    (auditPage env i u).BrokenLinks.length =
      (List.enum (visitPage (env.Visit i u) u).links).countP
        (fun p => isBroken (env.Head i p.1 p.2)) ∧
    (auditPage env i u).BrokenLinks.length ≤ (visitPage (env.Visit i u) u).links.length ∧
    ∀ l : GoString, (∀ j, isBroken (env.Head i j l) = true) →
      (((List.enum (visitPage (env.Visit i u) u).links).filter (fun p => p.2 = l)).flatMap
        (fun p => probeEntries (env.Head i p.1 p.2) p.2)).length =
      (visitPage (env.Visit i u) u).links.count l := by
  have hb : (auditPage env i u).BrokenLinks =
      (List.enum (visitPage (env.Visit i u) u).links).flatMap
        (fun p => probeEntries (env.Head i p.1 p.2) p.2) := by
    unfold auditPage
    rw [checkLinks_eq, visitPage_BrokenLinks]
    rfl
  have hlen : (auditPage env i u).BrokenLinks.length =
      (List.enum (visitPage (env.Visit i u) u).links).countP
        (fun p => isBroken (env.Head i p.1 p.2)) := by
    rw [hb, flatMap_probeEntries_length]
  refine ⟨hb, ?_, ?_, hlen, ?_, ?_⟩
  · intro r link
    exact ⟨probeEntries_of_broken r link, probeEntries_of_not_broken r link⟩
  · intro r
    cases r <;> simp [isBroken, HeadResult.err, HeadResult.resp]
  · rw [hlen]
    calc List.countP (fun p => isBroken (env.Head i p.1 p.2))
            (List.enum (visitPage (env.Visit i u) u).links)
        ≤ (List.enum (visitPage (env.Visit i u) u).links).length := List.countP_le_length _
      _ = (visitPage (env.Visit i u) u).links.length := List.enum_length
  · intro l hl
    rw [flatMap_probeEntries_length, List.countP_eq_length_filter, List.filter_filter]
    have : (fun p : Nat × GoString => (isBroken (env.Head i p.1 p.2) && decide (p.2 = l))) =
        (fun p : Nat × GoString => decide (p.2 = l)) := by
      funext p
      by_cases hp : p.2 = l
      · simp [hp, hl]
      · simp [hp]
    rw [this]
    exact filter_enumFrom_length l _ 0

/-- C10: with a `-file` that reads as `data`, the URL list is the positional
arguments in their order followed by, for each line of `data` split on the
newline, the line trimmed of white space when something is left; this is the
list that is audited. Each file URL is non-empty and neither begins nor ends
with white space (so not with a carriage return). -/
theorem url_list_assembly (env : Env) (args : List GoString) (file data : GoString)
    (hfile : file ≠ []) (hread : env.ReadFile file = Except.ok data) :
    collectURLs env args file =
      Except.ok (args ++ (strings.Split '\n' data).filterMap fileURL) ∧
    main env args file =
      (if (args ++ (strings.Split '\n' data).filterMap fileURL).length = 0 then Except.error 1
       else Except.ok (audit env (args ++ (strings.Split '\n' data).filterMap fileURL))) ∧
    (∀ line : GoString, fileURL line =
      if strings.TrimSpace line ≠ [] then some (strings.TrimSpace line) else none) ∧
    ∀ v ∈ (strings.Split '\n' data).filterMap fileURL,
      v ≠ [] ∧ (∀ c, v.head? = some c → strings.IsSpace c = false) ∧
      (∀ c, v.getLast? = some c → strings.IsSpace c = false) ∧ v.getLast? ≠ some '\r' := by
  have hc : collectURLs env args file =
      Except.ok (args ++ (strings.Split '\n' data).filterMap fileURL) := by
    unfold collectURLs
    rw [if_pos hfile, hread]
    simp only [appendFileLines_eq]
  refine ⟨hc, ?_, fun _ => rfl, ?_⟩
  · unfold main
    rw [hc]
  · intro v hv
    rw [List.mem_filterMap] at hv
    obtain ⟨line, _, hline⟩ := hv
    unfold fileURL at hline
    by_cases ht : strings.TrimSpace line = []
    · simp [ht] at hline
    · rw [if_pos ht] at hline
      have hv : strings.TrimSpace line = v := by simpa using hline
      subst hv
      refine ⟨ht, TrimSpace_head line, TrimSpace_getLast line, ?_⟩
      intro hcr
      have := TrimSpace_getLast line '\r' hcr
      revert this
      decide

/-- Witness of C10: one positional argument and a file of three lines, one of
them blank, one ending in a carriage return. -/
theorem url_list_assembly_witness :
    collectURLs
        { ReadFile := fun _ => Except.ok "http://b.com/\r\n\n  http://c.com/  ".toList,
          Visit := fun _ _ => FetchResult.fetched [],
          Head := fun _ _ _ => HeadResult.response 200 }
        ["http://a.com/".toList] "urls.txt".toList =
      Except.ok ["http://a.com/".toList, "http://b.com/".toList, "http://c.com/".toList] :=
  (url_list_assembly
    { ReadFile := fun _ => Except.ok "http://b.com/\r\n\n  http://c.com/  ".toList,
      Visit := fun _ _ => FetchResult.fetched [],
      Head := fun _ _ _ => HeadResult.response 200 }
    ["http://a.com/".toList] "urls.txt".toList "http://b.com/\r\n\n  http://c.com/  ".toList
    (by decide) rfl).1.trans (congrArg Except.ok (by decide))

end SEOAudit
